import Mathlib

/-!
Verification of `caffe2/python/data_parallel_model.py`.

Blob names are modelled as lists of characters (`Name`), exactly as Python
manipulates strings character-wise.  The number formatting used by
`"gpu_{}".format(d)` is modelled by `decimal`, the standard base-10 rendering
of a natural number.  Every function below is a direct translation of the
corresponding Python function, with Python `assert`/`KeyError`/`IndexError`
failure modes made explicit through `Except`.
-/

namespace DataParallelModel

/-- Blob and operator names: Python strings as character lists. -/
abbrev Name := List Char

/-- The namescope separator `scope._NAMESCOPE_SEPARATOR`. -/
def sep : Char := '/'

/-- The character for a single decimal digit. -/
def digitChar (d : Nat) : Char := Char.ofNat (48 + d)

/-- Fuel-driven base-10 rendering (little helper so that the definition is
structurally recursive and kernel-reducible). -/
def decCore : Nat → Nat → List Char
  | 0, _ => []
  | fuel + 1, n => if n = 0 then [] else decCore fuel (n / 10) ++ [digitChar (n % 10)]

/-- Base-10 rendering of a natural number, as `str(d)` produces in Python. -/
def decimal (n : Nat) : List Char := if n = 0 then ['0'] else decCore n n

/-- The device namescope string `"gpu_{d}/"` used throughout the source. -/
def gpuTag (d : Nat) : Name := 'g' :: 'p' :: 'u' :: '_' :: (decimal d ++ [sep])

/-- The bare `"gpu_"` marker tested by `inp.startswith("gpu_")`. -/
def gpuMark : Name := ['g', 'p', 'u', '_']

/-- stripParamName: `name[name.rindex(sep) + 1:]`, the suffix after the last
separator (the whole name when no separator occurs). -/
def stripParamName (p : Name) : Name := (p.reverse.takeWhile (fun c => c != sep)).reverse

/-- BlobReference.GetNameScope: `name[:name.rfind(sep) + 1]`, everything up to
and including the last separator. -/
def getNameScope (p : Name) : Name := p.take (p.length - (stripParamName p).length)

/-- Python's substring test `needle in hay`. -/
def hasSub (needle : Name) : Name → Bool
  | [] => needle.isEmpty
  | c :: rest => needle.isPrefixOf (c :: rest) || hasSub needle rest

/-- Per-key table mapping a device id to the tensor handle filed under it:
a Python dict in insertion order with unique keys. -/
abbrev DeviceTable := List (Nat × Name)

/-- The grouped store built by `_GroupByDevice` (`OrderedDict`, insertion
ordered). -/
abbrev Grouped := List (Name × DeviceTable)

/-- Python dict update `tbl[k] = v`: overwrite in place, else append. -/
def dictInsert (k : Nat) (v : Name) : DeviceTable → DeviceTable
  | [] => [(k, v)]
  | (k', v') :: rest => if k' = k then (k, v) :: rest else (k', v') :: dictInsert k v rest

/-- The body of `grouped[name][gpuid] = p` (with `grouped[name] = {}` created
on demand when the key is new). -/
def groupedInsert (key : Name) (d : Nat) (v : Name) : Grouped → Grouped
  | [] => [(key, [(d, v)])]
  | (k, tbl) :: rest =>
    if k = key then (k, dictInsert d v tbl) :: rest
    else (k, tbl) :: groupedInsert key d v rest

/-- Failure modes of `_GroupByDevice`: the Python asserts plus the (provably
unreachable) `KeyError`/`IndexError` accesses, made explicit. -/
inductive GroupErr where
  | emptyDevices : GroupErr
  | notDivisible : GroupErr
  | deviceIndex : GroupErr
  | scopeMismatch : Nat → Name → GroupErr
  | countMismatch : Name → GroupErr
  | masterMissing : Name → GroupErr
  | orderMismatch : Name → GroupErr
  | paramIndex : GroupErr
deriving DecidableEq

/-- The `for i, p in enumerate(params)` insertion loop of `_GroupByDevice`,
with the per-handle namescope assert. -/
def groupLoop (devices : List Nat) (npd : Nat) : Nat → List Name → Grouped → Except GroupErr Grouped
  | _, [], g => .ok g
  | i, p :: ps, g =>
    match devices[i / npd]? with
    | none => .error .deviceIndex
    | some gpuid =>
      if hasSub (gpuTag gpuid) (getNameScope p) then
        groupLoop devices npd (i + 1) ps (groupedInsert (stripParamName p) gpuid p g)
      else .error (.scopeMismatch i p)

/-- The same insertion loop without the asserts (used to state, independently
of evaluation order, what the grouped store contains). -/
def groupFold (devices : List Nat) (npd : Nat) : Nat → List Name → Grouped → Grouped
  | _, [], g => g
  | i, p :: ps, g =>
    groupFold devices npd (i + 1) ps
      (groupedInsert (stripParamName p) ((devices[i / npd]?).getD 0) p g)

/-- The `for j, (p, ps) in enumerate(grouped.items())` consistency loop:
per-key device-count assert followed by the ordering assert
`ps[devices[0]] == params[j]`. -/
def checkLoop (devices : List Nat) (params : List Name) : Nat → Grouped → Except GroupErr Unit
  | _, [] => .ok ()
  | j, (key, tbl) :: rest =>
    if tbl.length = devices.length then
      match devices.head? with
      | none => .error .deviceIndex
      | some d0 =>
        match params[j]? with
        | none => .error .paramIndex
        | some pj =>
          match List.lookup d0 tbl with
          | none => .error (.masterMissing key)
          | some v =>
            if v = pj then checkLoop devices params (j + 1) rest
            else .error (.orderMismatch key)
    else .error (.countMismatch key)

/-- `_GroupByDevice(devices, params)`.  An empty device list makes the Python
modulo raise `ZeroDivisionError`; divisibility is asserted before
`num_params_per_device` is computed (`int(len/len)` is exact integer
division here). -/
def groupByDevice (devices : List Nat) (params : List Name) : Except GroupErr Grouped :=
  if devices.length = 0 then .error .emptyDevices
  else if params.length % devices.length ≠ 0 then .error .notDivisible
  else
    match groupLoop devices (params.length / devices.length) 0 params [] with
    | .error e => .error e
    | .ok g =>
      match checkLoop devices params 0 g with
      | .error e => .error e
      | .ok _ => .ok g

/-- Handles laid out in `|devices|` contiguous per-device blocks, each block
listing the same canonical names in the same order under that device's
namescope. -/
def blockParams (devices : List Nat) (names : List Name) : List Name :=
  devices.flatMap (fun d => names.map (fun nm => gpuTag d ++ nm))

/-- The grouped store `_GroupByDevice` produces on block-laid-out input. -/
def blockGrouped (devices : List Nat) (names : List Name) : Grouped :=
  names.map (fun nm => (nm, devices.map (fun d => (d, gpuTag d ++ nm))))

/-- `_GetReverseOrderedGrads(model)`: `list(reversed(model._grad_names))`. -/
def getReverseOrderedGrads (gradNames : List Name) : List Name := gradNames.reverse

/-- `[param_to_grad[p] for p in model.params if p in param_to_grad]`
(`param_to_grad` is a dict; modelled as a keyed association list). -/
def gradsOrdered (params : List Name) (paramToGrad : List (Name × Name)) : List Name :=
  params.filterMap (fun p => List.lookup p paramToGrad)

/-- `grouped.keys()` of the ordered grouped store. -/
def groupedKeys (g : Grouped) : List Name := g.map Prod.fst

/-- The position of the first occurrence of a name in a list
(`list.index(x)` in Python terms). -/
def indexOfName (nm : Name) : List Name → Nat
  | [] => 0
  | x :: rest => if x = nm then 0 else indexOfName nm rest + 1

/-- The grouped store as the insertion loop leaves it (independent of the
asserts; equal to the real store whenever the loop completes). -/
def groupedOf (devices : List Nat) (params : List Name) : Grouped :=
  groupFold devices (params.length / devices.length) 0 params []

/-- Some handle's device namescope disagrees with the device implied by its
block position. -/
def scopeViolation (devices : List Nat) (params : List Name) : Prop :=
  ∃ k p dv, params[k]? = some p ∧
    devices[k / (params.length / devices.length)]? = some dv ∧
    hasSub (gpuTag dv) (getNameScope p) = false

/-- Some key ends up with a number of per-device entries different from the
device count. -/
def countViolation (devices : List Nat) (params : List Name) : Prop :=
  ∃ e ∈ groupedOf devices params, e.2.length ≠ devices.length

/-- The ordering-fidelity/master-entry check fails: the handle filed under
`devices[0]` for the `j`-th key is absent or differs from `params[j]`. -/
def orderViolation (devices : List Nat) (params : List Name) : Prop :=
  ∃ (j : Nat) (e : Name × DeviceTable) (p : Name) (d0 : Nat),
    devices.head? = some d0 ∧ (groupedOf devices params)[j]? = some e ∧
    params[j]? = some p ∧ List.lookup d0 e.2 ≠ some p

/-- Boolean form of `scopeViolation` (for concrete evaluation). -/
def scopeViolationB (devices : List Nat) (params : List Name) : Bool :=
  (List.range params.length).any (fun k =>
    match params[k]?, devices[k / (params.length / devices.length)]? with
    | some p, some dv => !(hasSub (gpuTag dv) (getNameScope p))
    | _, _ => false)

/-- Equality of `Except` results is decidable (used to evaluate the embedded
functions at concrete inputs). -/
instance {ε α : Type} [DecidableEq ε] [DecidableEq α] : DecidableEq (Except ε α) := fun a b =>
  match a, b with
  | .error x, .error y => decidable_of_iff (x = y) (by simp)
  | .error _, .ok _ => isFalse (by simp)
  | .ok _, .error _ => isFalse (by simp)
  | .ok x, .ok y => decidable_of_iff (x = y) (by simp)

/-- Input on which `_GroupByDevice` raises even though the handle count is
divisible, every namescope matches its positional device, and every key has
one entry per device: block 0 lists `[a, a, b]` while block 1 lists
`[a, b, b]`. -/
def c3bad : List Name :=
  [gpuTag 0 ++ ['a'], gpuTag 0 ++ ['a'], gpuTag 0 ++ ['b'],
   gpuTag 1 ++ ['a'], gpuTag 1 ++ ['b'], gpuTag 1 ++ ['b']]

/-- caffe2_pb2.CPU. -/
def caffeCPU : Nat := 0

/-- caffe2_pb2.CUDA. -/
def caffeCUDA : Nat := 1

/-- The fields of an OperatorDef that `_AnalyzeOperators` inspects. -/
structure OperatorDef where
  opType : Name
  deviceType : Nat
  cudaGpuId : Nat
  inputs : List Name
  outputs : List Name
deriving DecidableEq

/-- The context carried by the exception `_AnalyzeOperators` raises. -/
structure ScopeViolationErr where
  blob : Name
  opType : Name
  expectedScope : Name
deriving DecidableEq

/-- The `for inp in list(op.input) + list(op.output)` check of
`_AnalyzeOperators`. -/
def checkBlobs (namescope opType : Name) : List Name → Except ScopeViolationErr Unit
  | [] => .ok ()
  | b :: bs =>
    if gpuMark.isPrefixOf b && !(namescope.isPrefixOf b) then
      .error ⟨b, opType, namescope⟩
    else checkBlobs namescope opType bs

/-- The per-operator body of `_AnalyzeOperators`: collective (`"NCCL" in
op.type`) and copy (`"Copy" in op.type`) operators are skipped, as are
CPU-resident operators. -/
def analyzeOp (op : OperatorDef) : Except ScopeViolationErr Unit :=
  if hasSub "NCCL".data op.opType || hasSub "Copy".data op.opType then .ok ()
  else if op.deviceType = caffeCPU then .ok ()
  else checkBlobs (gpuTag op.cudaGpuId) op.opType (op.inputs ++ op.outputs)

/-- `_AnalyzeOperators(model)`: the pass over `model.Proto().op`. -/
def analyzeOperators : List OperatorDef → Except ScopeViolationErr Unit
  | [] => .ok ()
  | op :: ops =>
    match analyzeOp op with
    | .error e => .error e
    | .ok _ => analyzeOperators ops

/-- Failure modes of the single-host sync helpers (`KeyError`/`IndexError`
accesses and the per-key group-size assert). -/
inductive SingleHostErr where
  | keyMissing : Name → SingleHostErr
  | countBad : Name → SingleHostErr
  | emptyGroup : Name → SingleHostErr
  | noDevices : SingleHostErr
deriving DecidableEq

/-- The values list `model._device_grouped_blobs[g].values()`. -/
def groupOf (store : Grouped) (g : Name) : List Name :=
  ((List.lookup g store).getD []).map Prod.snd

/-- `grads_group[0]`, the representative handle used as the next chain
token. -/
def repOf (store : Grouped) (g : Name) : Name :=
  (groupOf store g).headD []

/-- The loop body of `_AllReduceGradientsSingleHost`: one in-place
`NCCLAllreduce(grads_group, grads_group, control_input=last_out)` per gradient
key, with `last_out = grads_group[0]` carried to the next iteration.  Each
emitted op is recorded as `(grads_group, control_input)`. -/
def allReduceLoop (devices : List Nat) (store : Grouped) :
    List Name → Option Name → Except SingleHostErr (List (List Name × Option Name))
  | [], _ => .ok []
  | g :: gs, lastOut =>
    match List.lookup g store with
    | none => .error (.keyMissing g)
    | some tbl =>
      if (tbl.map Prod.snd).length = devices.length then
        match (tbl.map Prod.snd).head? with
        | none => .error (.emptyGroup g)
        | some rep =>
          match allReduceLoop devices store gs (some rep) with
          | .error e => .error e
          | .ok rest => .ok ((tbl.map Prod.snd, lastOut) :: rest)
      else .error (.countBad g)

/-- `_AllReduceGradientsSingleHost`: returns immediately with no collective
ops when there is a single device. -/
def allReduceGradientsSingleHost (devices : List Nat) (store : Grouped)
    (gradNames : List Name) : Except SingleHostErr (List (List Name × Option Name)) :=
  if devices.length = 1 then .ok []
  else allReduceLoop devices store (getReverseOrderedGrads gradNames) none

/-- The copies inserted by `_Broadcast` for the non-master devices
(`net.Copy(blobs[param][master_gpu], blobs[param][gpu_idx])`). -/
def broadcastCopies (store : Grouped) (param : Name) (d0 : Nat) :
    List Nat → Except SingleHostErr (List (Name × Name))
  | [] => .ok []
  | gp :: gps =>
    match List.lookup param store with
    | none => .error (.keyMissing param)
    | some tbl =>
      match List.lookup d0 tbl, List.lookup gp tbl with
      | some src, some dst =>
        match broadcastCopies store param d0 gps with
        | .error e => .error e
        | .ok rest => .ok ((src, dst) :: rest)
      | _, _ => .error (.keyMissing param)

/-- `_Broadcast(devices, model, net, param)`: point-to-point copies from the
master device (`devices[0]`) to every other device. -/
def broadcastParam (devices : List Nat) (store : Grouped) (param : Name) :
    Except SingleHostErr (List (Name × Name)) :=
  match devices with
  | [] => .error .noDevices
  | d0 :: rest => broadcastCopies store param d0 rest

/-- Sequential `_Broadcast` over a list of canonical names. -/
def broadcastAll (devices : List Nat) (store : Grouped) :
    List Name → Except SingleHostErr (List (Name × Name))
  | [] => .ok []
  | p :: ps =>
    match broadcastParam devices store p with
    | .error e => .error e
    | .ok cs =>
      match broadcastAll devices store ps with
      | .error e => .error e
      | .ok rest => .ok (cs ++ rest)

/-- `_BroadcastComputedParamsSingleHost`: returns immediately with no copy
ops when there is a single device; otherwise broadcasts every computed
parameter from the master device. -/
def broadcastComputedParamsSingleHost (devices : List Nat) (store : Grouped)
    (computedParamNames : List Name) : Except SingleHostErr (List (Name × Name)) :=
  if devices.length = 1 then .ok []
  else broadcastAll devices store computedParamNames

/-- Index of the last position `j < L` with `j % nc = i` (the step that last
wrote buffer slot `i` of the cyclical-control buffer after `L` steps). -/
def lastW (nc L i : Nat) : Nat := L - 1 - ((L - 1 - i) % nc)

/-- Closed form of the `cyclical_controls` buffer after the reduced tensors
`rs` have been issued (in order): the list itself while it is still filling,
then a cyclical buffer of the last `nc` entries. -/
def windowState (nc : Nat) (rs : List Name) : List Name :=
  if rs.length < nc then rs
  else (List.range nc).map (fun i => rs.getD (lastW nc rs.length i) [])

/-- The rendezvous configuration dict. -/
structure Rendezvous where
  kvHandler : Name
  numShards : Nat
  shardId : Nat
  engine : Name
deriving DecidableEq

/-- The engine that forces CPU-bound scratch blobs. -/
def RDMA : Name := "RDMA_TCP".data

/-- `num_workers` as configured by `Parallelize_GPU`
(`len(devices) * 4 + extra_workers`, with 8 extra workers when a rendezvous
is supplied). -/
def parallelizeNumWorkers (numDevices : Nat) (distributed : Bool) : Nat :=
  numDevices * 4 + (if distributed then 8 else 0)

/-- Python `s.replace(pat, rep)` (non-empty pattern), kernel-reducible via a
fuel argument bounded by the string length. -/
def replaceCore : Nat → Name → Name → Name → Name
  | 0, _, _, s => s
  | fuel + 1, pat, rep, s =>
    match s with
    | [] => []
    | c :: rest =>
      if pat.isPrefixOf (c :: rest) && !pat.isEmpty then
        rep ++ replaceCore fuel pat rep ((c :: rest).drop pat.length)
      else c :: replaceCore fuel pat rep rest

/-- Python `s.replace(pat, rep)`. -/
def replaceAll (s pat rep : Name) : Name := replaceCore s.length pat rep s

/-- The graph operations `_AllReduceGradientsDistributed` emits, in emission
order (`init…` constructors are ops added to `param_init_net`, the others to
the main net; `broadcastCopy` are the `_Broadcast` copies of step 3). -/
inductive DistEvent where
  | constantFill : Name → DistEvent
  | ncclAllReduce : List Name → Option Name → DistEvent
  | copy : Name → Name → DistEvent
  | copyGPUToCPU : Name → Name → DistEvent
  | copyCPUToGPU : Name → Name → DistEvent
  | initConstantFill : Name → DistEvent
  | initCopyGPUToCPU : Name → Name → DistEvent
  | createCommonWorld : Name → DistEvent
  | crossHostAllReduce : Name → Option Name → DistEvent
  | broadcastCopy : Name → Name → DistEvent
deriving DecidableEq

/-- Failure modes of `_AllReduceGradientsDistributed` (the `num_workers`
assert, `KeyError`/`IndexError` accesses, the `master_grad in grads_group`
assert, and failures propagated from `_Broadcast`). -/
inductive DistErr where
  | tooFewWorkers : DistErr
  | noDevices : DistErr
  | keyMissing : Name → DistErr
  | masterNotInGroup : Name → DistErr
  | controlIndex : DistErr
  | broadcastFailed : Name → DistErr
deriving DecidableEq

/-- The main loop of `_AllReduceGradientsDistributed` over the
reverse-ordered gradient names, carrying `cyclical_controls`, `counter` and
`nccl_control_blob`. -/
def distLoop (devices : List Nat) (d0 : Nat) (store : Grouped) (engine : Name)
    (nc : Nat) :
    List Name → List Name → Nat → Option Name → Except DistErr (List DistEvent)
  | [], _, _, _ => .ok []
  | g :: gs, controls, counter, ncclCtl =>
    match List.lookup g store with
    | none => .error (.keyMissing g)
    | some tbl =>
      match List.lookup d0 tbl with
      | none => .error (.keyMissing g)
      | some master =>
        if master ∈ tbl.map Prod.snd then
          match (tbl.map Prod.snd).head? with
          | none => .error .controlIndex
          | some rep =>
            match (if controls.length < nc then .ok none
                   else match controls[counter % nc]? with
                        | none => .error .controlIndex
                        | some c => .ok (some c) : Except DistErr (Option Name)) with
            | .error e => .error e
            | .ok ctl =>
              match broadcastParam devices store g with
              | .error _ => .error (.broadcastFailed g)
              | .ok bcs =>
                match distLoop devices d0 store engine nc gs
                    (if controls.length < nc
                     then controls ++ [if engine = RDMA
                          then master ++ "_red".data ++ "cpu".data
                          else master ++ "_red".data]
                     else controls.set (counter % nc)
                          (if engine = RDMA
                           then master ++ "_red".data ++ "cpu".data
                           else master ++ "_red".data))
                    (counter + 1) (some rep) with
                | .error e => .error e
                | .ok evs =>
                  .ok ([DistEvent.constantFill (master ++ "_red".data),
                        DistEvent.ncclAllReduce (tbl.map Prod.snd) ncclCtl,
                        DistEvent.copy master (master ++ "_red".data)] ++
                       (if engine = RDMA then
                          [DistEvent.initConstantFill (master ++ "_red".data ++ "cpu".data),
                           DistEvent.initCopyGPUToCPU (replaceAll master "_grad".data [])
                             (master ++ "_red".data ++ "cpu".data),
                           DistEvent.copyGPUToCPU (master ++ "_red".data)
                             (master ++ "_red".data ++ "cpu".data)]
                        else []) ++
                       [DistEvent.createCommonWorld (g ++ "_cw".data),
                        DistEvent.crossHostAllReduce
                          (if engine = RDMA
                           then master ++ "_red".data ++ "cpu".data
                           else master ++ "_red".data) ctl] ++
                       [(if engine = RDMA
                         then DistEvent.copyCPUToGPU
                           (master ++ "_red".data ++ "cpu".data) master
                         else DistEvent.copy (master ++ "_red".data) master)] ++
                       bcs.map (fun c => DistEvent.broadcastCopy c.1 c.2) ++ evs)
        else .error (.masterNotInGroup g)

/-- `_AllReduceGradientsDistributed(devices, model, rendezvous)`. -/
def allReduceGradientsDistributed (devices : List Nat) (store : Grouped)
    (rendezvous : Rendezvous) (numWorkers : Nat) (gradNames : List Name) :
    Except DistErr (List DistEvent) :=
  if numWorkers ≤ 1 then .error .tooFewWorkers
  else
    match devices.head? with
    | none => .error .noDevices
    | some d0 =>
      distLoop devices d0 store rendezvous.engine (min 4 (numWorkers - 1))
        (getReverseOrderedGrads gradNames) [] 0 none

/-- The control inputs of the emitted cross-host `Allreduce` ops, in order. -/
def crossHostControls (evs : List DistEvent) : List (Option Name) :=
  evs.filterMap (fun e => match e with
    | .crossHostAllReduce _ c => some c
    | _ => none)

/-- The world names of the emitted `CreateCommonWorld` ops, in order. -/
def worldsOf (evs : List DistEvent) : List Name :=
  evs.filterMap (fun e => match e with
    | .createCommonWorld w => some w
    | _ => none)

/-- The master-device handle of a gradient key in the grouped store. -/
def masterOf (store : Grouped) (d0 : Nat) (g : Name) : Name :=
  (List.lookup d0 ((List.lookup g store).getD [])).getD []

/-- The name of the reduced scratch tensor used as the chain token of a
gradient key (the `"cpu"` variant under `RDMA_TCP`). -/
def redOf (store : Grouped) (d0 : Nat) (engine : Name) (g : Name) : Name :=
  if engine = RDMA then masterOf store d0 g ++ "_red".data ++ "cpu".data
  else masterOf store d0 g ++ "_red".data

inductive BuildEvent where
  | configure (numWorkers : Nat) (netType : Name)
  | callInput (device : Nat)
  | callForward (device : Nat)
  | groupParamsPhase
  | groupComputedPhase
  | addGradients
  | groupGradientsPhase
  | broadcastComputedPhase
  | allReducePhase
  | callUpdate (device : Nat) (lrScale : ℚ)
  | analyzePhase
  | firstIterArg
  | distParamSync
  | syncParamsPhase
  | optimizeMemoryPhase
  deriving DecidableEq

inductive BuildErr where
  | paramsNotEmpty
  | zeroDivision
  deriving DecidableEq

def shardsOf : Option Rendezvous → Nat
  | none => 1
  | some r => r.numShards

def lrScaleOf (devices : List Nat) (rendezvous : Option Rendezvous) : ℚ :=
  1 / ((devices.length : ℚ) * (shardsOf rendezvous : ℚ))

def deviceLoopEvents (devices : List Nat) : List BuildEvent :=
  devices.flatMap (fun d => [BuildEvent.callInput d, BuildEvent.callForward d])

def parallelizeGPUTrace (params0 : List Name) (devices : List Nat)
    (rendezvous : Option Rendezvous) (hasUpdate : Bool)
    (broadcastComputed : Bool) (optimizeMemory : Bool) (netType : Name) :
    List BuildEvent × Option BuildErr :=
  let numWorkers := devices.length * 4 + (if rendezvous.isSome then 8 else 0)
  let configured : List BuildEvent := [.configure numWorkers netType]
  if params0 = [] then
    let grouped := configured ++ deviceLoopEvents devices
      ++ [.groupParamsPhase, .groupComputedPhase]
    if hasUpdate then
      let synced := grouped ++ [.addGradients, .groupGradientsPhase]
        ++ (if broadcastComputed then [.broadcastComputedPhase] else [])
        ++ [.allReducePhase]
      if devices.length * shardsOf rendezvous = 0 then
        (synced, some .zeroDivision)
      else
        (synced ++ devices.map (fun d => .callUpdate d (lrScaleOf devices rendezvous))
          ++ [.analyzePhase, .firstIterArg]
          ++ (if rendezvous.isSome then [.distParamSync] else [])
          ++ [.syncParamsPhase]
          ++ (if optimizeMemory then [.optimizeMemoryPhase] else []), none)
    else (grouped, none)
  else (configured, some .paramsNotEmpty)

def isUpdate : BuildEvent → Bool
  | .callUpdate _ _ => true
  | _ => false

def isCallback : BuildEvent → Bool
  | .callInput _ => true
  | .callForward _ => true
  | .callUpdate _ _ => true
  | _ => false

def nameLt : Name → Name → Bool
  | _, [] => false
  | [], _ :: _ => true
  | a :: as, b :: bs =>
    if a.toNat < b.toNat then true
    else if b.toNat < a.toNat then false
    else nameLt as bs

def insertName (x : Name) : List Name → List Name
  | [] => [x]
  | y :: ys => if nameLt y x then y :: insertName x ys else x :: y :: ys

/-- Python `sorted` on a list of strings (insertion sort by code points). -/
def sortNames : List Name → List Name
  | [] => []
  | x :: xs => insertName x (sortNames xs)

inductive PsEvent where
  | createWorld (world : Name)
  | broadcastBlob (blob : Name)
  | gpuToCPU (src dst : Name)
  | cpuToGPU (src dst : Name)
  deriving DecidableEq

/-- Body of the `for param_name in sorted(uniq_param_names)` loop of
`_AddDistributedParameterSync`: per name, the init net gets one
`CreateCommonWorld("{name}_cw")` and the train net gets the
GPU-to-CPU copy, the `Broadcast` and the CPU-to-GPU copy. -/
def pSyncLoop (store : Grouped) (d0 : Nat) :
    List Name → Except DistErr (List PsEvent × List PsEvent)
  | [] => .ok ([], [])
  | p :: ps =>
    match List.lookup p store with
    | none => .error (.keyMissing p)
    | some tbl =>
      match List.lookup d0 tbl with
      | none => .error (.keyMissing p)
      | some param =>
        match pSyncLoop store d0 ps with
        | .error e => .error e
        | .ok (inits, nets) =>
          .ok (PsEvent.createWorld (p ++ "_cw".data) :: inits,
            PsEvent.gpuToCPU param (param ++ "cpu".data)
              :: PsEvent.broadcastBlob (param ++ "cpu".data)
              :: PsEvent.cpuToGPU (param ++ "cpu".data) param :: nets)

/-- `_AddDistributedParameterSync(devices, model, init_net, net, rendezvous,
uniq_param_names)`: the `iter_cw` CommonWorld plus the ITER broadcast, then
the per-name loop over `sorted(uniq_param_names)`.  Returns the events
emitted on the init net and on the train net. -/
def addDistributedParameterSync (devices : List Nat) (store : Grouped)
    (uniq : List Name) : Except DistErr (List PsEvent × List PsEvent) :=
  match devices.head? with
  | none => .error .noDevices
  | some d0 =>
    match pSyncLoop store d0 (sortNames uniq) with
    | .error e => .error e
    | .ok (inits, nets) =>
      .ok (PsEvent.createWorld "iter_cw".data :: inits,
        PsEvent.broadcastBlob (gpuTag d0 ++ "ITER".data) :: nets)

/-- The world names of the `CreateCommonWorld` ops emitted on the init net. -/
def psWorlds (evs : List PsEvent) : List Name :=
  evs.filterMap (fun e => match e with
    | .createWorld w => some w
    | _ => none)

structure CkptState where
  store : Grouped
  checkpointNetBuilt : Bool
  deriving DecidableEq

inductive CkptEvent where
  | buildNet
  | distSyncPhase (uniq : List Name)
  | syncParamsPhase (uniq : List Name)
  | copyIter (src dst : Nat)
  | createNet
  | runNet
  deriving DecidableEq

/-- The per-device handle `"gpu_{d}/{name}"` synthesized by
`FinalizeAfterCheckpoint` for a name absent from the grouped store. -/
def synthesizedTable (devices : List Nat) (name : Name) : DeviceTable :=
  devices.map (fun d => (d, gpuTag d ++ name))

/-- The registration loop of `FinalizeAfterCheckpoint`: every name not in
the grouped store gets the synthesized per-device table. -/
def autoRegister (devices : List Nat) : Grouped → List Name → Grouped
  | store, [] => store
  | store, n :: ns =>
    autoRegister devices
      (if (List.lookup n store).isSome then store
       else store ++ [(n, synthesizedTable devices n)]) ns

/-- `FinalizeAfterCheckpoint(model, blobs, sync_iter)`: if the checkpoint
net is not yet built, register missing blobs, build the sync net (with the
distributed-sync phase when a rendezvous is set, the parameter broadcasts,
and the ITER copies), and create it; in every case, run the net. -/
def finalizeAfterCheckpoint (devices : List Nat)
    (rendezvous : Option Rendezvous) (st : CkptState) (blobs : List Name)
    (syncIter : Bool) : CkptState × List CkptEvent :=
  if st.checkpointNetBuilt then (st, [.runNet])
  else
    let uniq := blobs.map stripParamName
    ({ store := autoRegister devices st.store uniq, checkpointNetBuilt := true },
      [.buildNet]
        ++ (if rendezvous.isSome then [.distSyncPhase uniq] else [])
        ++ [.syncParamsPhase uniq]
        ++ (if syncIter then
              (devices.drop 1).map (fun d => .copyIter (devices.headD 0) d)
            else [])
        ++ [.createNet, .runNet])

/-- A sequence of `FinalizeAfterCheckpoint` calls on the same model. -/
def finalizeCalls (devices : List Nat) (rendezvous : Option Rendezvous) :
    CkptState → List (List Name × Bool) → CkptState × List (List CkptEvent)
  | st, [] => (st, [])
  | st, (blobs, si) :: rest =>
    let r := finalizeAfterCheckpoint devices rendezvous st blobs si
    let f := finalizeCalls devices rendezvous r.1 rest
    (f.1, r.2 :: f.2)

theorem hasSub_iff {needle hay : Name} : hasSub needle hay = true ↔ needle <:+: hay := by
  induction hay with
  | nil =>
    simp only [hasSub, List.isEmpty_iff, List.infix_nil]
  | cons c rest ih =>
    simp only [hasSub, Bool.or_eq_true, List.isPrefixOf_iff_prefix, ih,
      List.infix_cons_iff]

theorem decCore_eq {fuel n : Nat} (h : n ≤ fuel) :
    decCore fuel n = ((Nat.digits 10 n).map digitChar).reverse := by
  induction fuel generalizing n with
  | zero =>
    have hn : n = 0 := Nat.le_zero.mp h
    subst hn
    simp [decCore]
  | succ fuel ih =>
    by_cases hn : n = 0
    · subst hn; simp [decCore]
    · have hpos : 0 < n := Nat.pos_of_ne_zero hn
      rw [decCore, if_neg hn, Nat.digits_def' (by norm_num) hpos]
      have hd : n / 10 ≤ fuel := by
        have := Nat.div_lt_self hpos (by norm_num : 1 < 10)
        omega
      rw [ih hd]
      simp

theorem decimal_eq_of_ne_zero {n : Nat} (h : n ≠ 0) :
    decimal n = ((Nat.digits 10 n).map digitChar).reverse := by
  rw [decimal, if_neg h, decCore_eq (Nat.le_refl n)]

theorem digitChar_toNat {d : Nat} (h : d < 10) : (digitChar d).toNat = 48 + d := by
  interval_cases d <;> decide

theorem digitChar_inj {a b : Nat} (ha : a < 10) (hb : b < 10)
    (h : digitChar a = digitChar b) : a = b := by
  have := congrArg Char.toNat h
  rw [digitChar_toNat ha, digitChar_toNat hb] at this
  omega

theorem mem_decimal_code {c : Char} {n : Nat} (h : c ∈ decimal n) :
    48 ≤ c.toNat ∧ c.toNat ≤ 57 := by
  by_cases hn : n = 0
  · subst hn
    simp only [decimal, if_pos] at h
    rw [List.mem_singleton] at h
    rw [h]; decide
  · rw [decimal_eq_of_ne_zero hn] at h
    rw [List.mem_reverse, List.mem_map] at h
    obtain ⟨d, hd, rfl⟩ := h
    have hlt : d < 10 := Nat.digits_lt_base (by norm_num) hd
    rw [digitChar_toNat hlt]
    omega

theorem sep_not_mem_decimal {n : Nat} : sep ∉ decimal n := by
  intro h
  have := mem_decimal_code h
  revert this; decide

theorem g_not_mem_decimal {n : Nat} : 'g' ∉ decimal n := by
  intro h
  have := mem_decimal_code h
  revert this; decide

theorem decimal_eq_singleton_zero {n : Nat} (h : decimal n = ['0']) : n = 0 := by
  by_contra hn
  rw [decimal_eq_of_ne_zero hn] at h
  have hmap : (Nat.digits 10 n).map digitChar = ['0'] := by
    have := congrArg List.reverse h
    simpa using this
  cases hdig : Nat.digits 10 n with
  | nil => rw [hdig] at hmap; simp at hmap
  | cons z zs =>
    rw [hdig] at hmap
    simp only [List.map_cons, List.cons.injEq] at hmap
    obtain ⟨hz, hzs⟩ := hmap
    have hzs' : zs = [] := by simpa using hzs
    have hz10 : z < 10 := Nat.digits_lt_base (by norm_num) (by rw [hdig]; simp)
    have hz0 : z = 0 := digitChar_inj hz10 (by norm_num) (hz.trans (by decide))
    have hzero : n = 0 := by
      have hofd := Nat.ofDigits_digits 10 n
      rw [hdig, hzs', hz0] at hofd
      simpa [Nat.ofDigits] using hofd.symm
    exact hn hzero

theorem decimal_inj {m n : Nat} (h : decimal m = decimal n) : m = n := by
  have key : ∀ {a b : List Nat}, (∀ x ∈ a, x < 10) → (∀ x ∈ b, x < 10) →
      a.map digitChar = b.map digitChar → a = b := by
    intro a
    induction a with
    | nil => intro b _ _ hm; cases b <;> simp_all
    | cons x xs ih =>
      intro b ha hb hm
      cases b with
      | nil => simp_all
      | cons y ys =>
        simp only [List.map_cons, List.cons.injEq] at hm
        have hx : x = y := digitChar_inj (ha x (by simp)) (hb y (by simp)) hm.1
        have := ih (fun z hz => ha z (by simp [hz])) (fun z hz => hb z (by simp [hz])) hm.2
        simp [hx, this]
  by_cases hm : m = 0 <;> by_cases hn : n = 0
  · omega
  · have hd : decimal n = ['0'] := by rw [← h, decimal, if_pos hm]
    exact absurd (decimal_eq_singleton_zero hd) hn
  · have hd : decimal m = ['0'] := by rw [h, decimal, if_pos hn]
    exact absurd (decimal_eq_singleton_zero hd) hm
  · rw [decimal_eq_of_ne_zero hm, decimal_eq_of_ne_zero hn] at h
    have h2 := List.reverse_injective h
    have := key (fun x hx => Nat.digits_lt_base (by norm_num) hx)
      (fun x hx => Nat.digits_lt_base (by norm_num) hx) h2
    exact Nat.digits_inj_iff.mp this

theorem takeWhile_append_cons {p : Char → Bool} {l₁ l₂ : Name} {x : Char}
    (h₁ : ∀ a ∈ l₁, p a = true) (hx : p x = false) :
    (l₁ ++ x :: l₂).takeWhile p = l₁ := by
  induction l₁ with
  | nil => simp [List.takeWhile, hx]
  | cons a l ih =>
    have ha : p a = true := h₁ a (by simp)
    simp only [List.cons_append, List.takeWhile_cons, ha, if_true]
    rw [ih (fun b hb => h₁ b (by simp [hb]))]

theorem strip_append_sep {s nm : Name} (h : ∀ c ∈ nm, c ≠ sep) :
    stripParamName (s ++ [sep] ++ nm) = nm := by
  unfold stripParamName
  have hrev : (s ++ [sep] ++ nm).reverse = nm.reverse ++ sep :: s.reverse := by
    simp
  rw [hrev, takeWhile_append_cons (fun a ha => ?_) (by simp)]
  · simp
  · have : a ≠ sep := h a (by simpa using ha)
    simpa using this

theorem gpuTag_split (d : Nat) : gpuTag d = (gpuMark ++ decimal d) ++ [sep] := by
  simp [gpuTag, gpuMark]

theorem strip_gpuTag_append {d : Nat} {nm : Name} (h : ∀ c ∈ nm, c ≠ sep) :
    stripParamName (gpuTag d ++ nm) = nm := by
  rw [gpuTag_split, strip_append_sep h]

theorem scope_gpuTag_append {d : Nat} {nm : Name} (h : ∀ c ∈ nm, c ≠ sep) :
    getNameScope (gpuTag d ++ nm) = gpuTag d := by
  unfold getNameScope
  rw [strip_gpuTag_append h]
  have hlen : (gpuTag d ++ nm).length - nm.length = (gpuTag d).length := by
    simp
  rw [hlen, List.take_left]

theorem no_sep_segment : ∀ (as bs rest : Name), (∀ c ∈ as, c ≠ sep) →
    (∀ c ∈ bs, c ≠ sep) → (as ++ [sep]) <+: (bs ++ [sep] ++ rest) → as = bs := by
  intro as
  induction as with
  | nil =>
    intro bs rest _ hbs hpre
    cases bs with
    | nil => rfl
    | cons b bs' =>
      exfalso
      simp only [List.nil_append, List.cons_append, List.append_assoc] at hpre
      rw [List.cons_prefix_cons] at hpre
      exact hbs b (by simp) hpre.1.symm
  | cons a as' ih =>
    intro bs rest has hbs hpre
    cases bs with
    | nil =>
      exfalso
      simp only [List.cons_append, List.nil_append] at hpre
      rw [List.cons_prefix_cons] at hpre
      exact has a (by simp) hpre.1
    | cons b bs' =>
      simp only [List.cons_append, List.append_assoc] at hpre
      rw [List.cons_prefix_cons] at hpre
      have hab : a = b := hpre.1
      have htail : as' = bs' := by
        apply ih bs' rest (fun c hc => has c (by simp [hc])) (fun c hc => hbs c (by simp [hc]))
        simpa [List.append_assoc] using hpre.2
      simp [hab, htail]

theorem tag_prefix_append_iff {g d : Nat} {rest : Name} :
    gpuTag g <+: gpuTag d ++ rest ↔ g = d := by
  constructor
  · intro h
    have hshape : gpuTag d ++ rest =
        'g' :: 'p' :: 'u' :: '_' :: (decimal d ++ [sep] ++ rest) := by
      simp [gpuTag]
    rw [hshape] at h
    unfold gpuTag at h
    rw [List.cons_prefix_cons] at h
    rw [List.cons_prefix_cons] at h
    rw [List.cons_prefix_cons] at h
    rw [List.cons_prefix_cons] at h
    have := no_sep_segment (decimal g) (decimal d) rest
      (fun c hc hcs => sep_not_mem_decimal (hcs ▸ hc))
      (fun c hc hcs => sep_not_mem_decimal (hcs ▸ hc)) h.2.2.2.2
    exact decimal_inj this
  · intro h
    subst h
    exact List.prefix_append _ _

theorem tag_prefix_iff {g d : Nat} : gpuTag g <+: gpuTag d ↔ g = d := by
  have := @tag_prefix_append_iff g d []
  simpa using this

theorem tag_infix_tag_iff {g d : Nat} : gpuTag g <:+: gpuTag d ↔ g = d := by
  constructor
  · intro h
    obtain ⟨s, t, hst⟩ := h
    cases s with
    | nil =>
      have hpre : gpuTag g <+: gpuTag d := ⟨t, by simpa using hst⟩
      exact tag_prefix_iff.mp hpre
    | cons c s' =>
      exfalso
      have hshape : gpuTag d = 'g' :: ('p' :: 'u' :: '_' :: (decimal d ++ [sep])) := by
        simp [gpuTag]
      rw [hshape] at hst
      simp only [List.cons_append, List.cons.injEq] at hst
      have hg : 'g' ∈ s' ++ gpuTag g ++ t := by
        have : 'g' ∈ gpuTag g := by simp [gpuTag]
        simp [this]
      rw [hst.2] at hg
      simp only [List.mem_cons, List.mem_append, List.mem_singleton] at hg
      rcases hg with h1 | h1 | h1 | h2 | h2 | h2
      · exact absurd h1 (by decide)
      · exact absurd h1 (by decide)
      · exact absurd h1 (by decide)
      · exact g_not_mem_decimal h2
      · exact absurd h2 (by decide)
      · simp at h2
  · intro h
    subst h
    exact List.infix_refl _

theorem dictInsert_of_not_mem {k : Nat} {v : Name} {tbl : DeviceTable}
    (h : ∀ e ∈ tbl, e.1 ≠ k) : dictInsert k v tbl = tbl ++ [(k, v)] := by
  induction tbl with
  | nil => rfl
  | cons e rest ih =>
    obtain ⟨k', v'⟩ := e
    have hk : k' ≠ k := h (k', v') (by simp)
    simp only [dictInsert, if_neg hk, List.cons_append]
    rw [ih (fun e he => h e (by simp [he]))]

theorem groupedInsert_of_not_mem {key : Name} {d : Nat} {v : Name} {g : Grouped}
    (h : ∀ e ∈ g, e.1 ≠ key) : groupedInsert key d v g = g ++ [(key, [(d, v)])] := by
  induction g with
  | nil => rfl
  | cons e rest ih =>
    obtain ⟨k, tbl⟩ := e
    have hk : k ≠ key := h (k, tbl) (by simp)
    simp only [groupedInsert, if_neg hk, List.cons_append]
    rw [ih (fun e he => h e (by simp [he]))]

theorem groupedInsert_found {key : Name} {d : Nat} {v : Name} {l₂ : Grouped}
    {tbl : DeviceTable} :
    ∀ {l₁ : Grouped}, (∀ e ∈ l₁, e.1 ≠ key) →
    groupedInsert key d v (l₁ ++ (key, tbl) :: l₂) = l₁ ++ (key, dictInsert d v tbl) :: l₂ := by
  intro l₁
  induction l₁ with
  | nil => intro _; simp [groupedInsert]
  | cons e rest ih =>
    intro h
    obtain ⟨k, t⟩ := e
    have hk : k ≠ key := h (k, t) (by simp)
    simp only [List.cons_append, groupedInsert, if_neg hk]
    exact congrArg ((k, t) :: ·) (ih (fun e he => h e (by simp [he])))

theorem groupFold_append {devices : List Nat} {npd : Nat} :
    ∀ (l₁ l₂ : List Name) (i : Nat) (g : Grouped),
    groupFold devices npd i (l₁ ++ l₂) g
      = groupFold devices npd (i + l₁.length) l₂ (groupFold devices npd i l₁ g) := by
  intro l₁
  induction l₁ with
  | nil => intro l₂ i g; simp [groupFold]
  | cons p ps ih =>
    intro l₂ i g
    simp only [List.cons_append, groupFold, List.append_eq]
    rw [ih]
    have harith : i + 1 + ps.length = i + (p :: ps).length := by simp; omega
    rw [harith]

theorem foldBlockLater {devices : List Nat} {npd : Nat} {d : Nat} {tbl : Name → DeviceTable} :
    ∀ (ns done : List Name) (i : Nat),
    (∀ k, k < ns.length → (devices[(i + k) / npd]?).getD 0 = d) →
    (∀ nm ∈ done ++ ns, ∀ c ∈ nm, c ≠ sep) →
    (done ++ ns).Pairwise (· ≠ ·) →
    (∀ nm, ∀ e ∈ tbl nm, e.1 ≠ d) →
    groupFold devices npd i (ns.map (fun nm => gpuTag d ++ nm))
        (done.map (fun nm => (nm, tbl nm ++ [(d, gpuTag d ++ nm)]))
          ++ ns.map (fun nm => (nm, tbl nm)))
      = (done ++ ns).map (fun nm => (nm, tbl nm ++ [(d, gpuTag d ++ nm)])) := by
  intro ns
  induction ns with
  | nil => intro done i _ _ _ _; simp [groupFold]
  | cons nm ns' ih =>
    intro done i hdev hnm hdis htbl
    simp only [List.map_cons, groupFold]
    have hstrip : stripParamName (gpuTag d ++ nm) = nm :=
      strip_gpuTag_append (hnm nm (by simp))
    have hdev0 : (devices[(i + 0) / npd]?).getD 0 = d := hdev 0 (by simp)
    rw [Nat.add_zero] at hdev0
    rw [hstrip, hdev0]
    have hdone_ne : ∀ x ∈ done, x ≠ nm := by
      rw [List.pairwise_append] at hdis
      intro x hx
      exact hdis.2.2 x hx nm (by simp)
    have hfound :
        groupedInsert nm d (gpuTag d ++ nm)
          (done.map (fun nm' => (nm', tbl nm' ++ [(d, gpuTag d ++ nm')]))
            ++ (nm, tbl nm) :: ns'.map (fun nm' => (nm', tbl nm')))
        = done.map (fun nm' => (nm', tbl nm' ++ [(d, gpuTag d ++ nm')]))
            ++ (nm, dictInsert d (gpuTag d ++ nm) (tbl nm)) :: ns'.map (fun nm' => (nm', tbl nm')) := by
      apply groupedInsert_found
      intro e he
      rw [List.mem_map] at he
      obtain ⟨x, hx, rfl⟩ := he
      exact hdone_ne x hx
    rw [hfound, dictInsert_of_not_mem (htbl nm)]
    have hrepack :
        done.map (fun nm' => (nm', tbl nm' ++ [(d, gpuTag d ++ nm')]))
          ++ (nm, tbl nm ++ [(d, gpuTag d ++ nm)]) :: ns'.map (fun nm' => (nm', tbl nm'))
        = (done ++ [nm]).map (fun nm' => (nm', tbl nm' ++ [(d, gpuTag d ++ nm')]))
          ++ ns'.map (fun nm' => (nm', tbl nm')) := by
      simp
    rw [hrepack]
    have hdev' : ∀ k, k < ns'.length → (devices[(i + 1 + k) / npd]?).getD 0 = d := by
      intro k hk
      have := hdev (k + 1) (by simp; omega)
      have harith : i + (k + 1) = i + 1 + k := by omega
      rwa [harith] at this
    have hnm' : ∀ x ∈ (done ++ [nm]) ++ ns', ∀ c ∈ x, c ≠ sep := by
      intro x hx
      apply hnm
      simp only [List.append_assoc, List.singleton_append] at hx ⊢
      exact hx
    have hdis' : ((done ++ [nm]) ++ ns').Pairwise (· ≠ ·) := by
      simp only [List.append_assoc, List.singleton_append]
      exact hdis
    have := ih (done ++ [nm]) (i + 1) hdev' hnm' hdis' htbl
    rw [this]
    simp

theorem foldBlockFirst {devices : List Nat} {npd : Nat} {d : Nat} :
    ∀ (ns done : List Name) (i : Nat),
    (∀ k, k < ns.length → (devices[(i + k) / npd]?).getD 0 = d) →
    (∀ nm ∈ done ++ ns, ∀ c ∈ nm, c ≠ sep) →
    (done ++ ns).Pairwise (· ≠ ·) →
    groupFold devices npd i (ns.map (fun nm => gpuTag d ++ nm))
        (done.map (fun nm => (nm, [(d, gpuTag d ++ nm)])))
      = (done ++ ns).map (fun nm => (nm, [(d, gpuTag d ++ nm)])) := by
  intro ns
  induction ns with
  | nil => intro done i _ _ _; simp [groupFold]
  | cons nm ns' ih =>
    intro done i hdev hnm hdis
    simp only [List.map_cons, groupFold]
    have hstrip : stripParamName (gpuTag d ++ nm) = nm :=
      strip_gpuTag_append (hnm nm (by simp))
    have hdev0 : (devices[(i + 0) / npd]?).getD 0 = d := hdev 0 (by simp)
    rw [Nat.add_zero] at hdev0
    rw [hstrip, hdev0]
    have hdone_ne : ∀ x ∈ done, x ≠ nm := by
      rw [List.pairwise_append] at hdis
      intro x hx
      exact hdis.2.2 x hx nm (by simp)
    have hnot : ∀ e ∈ done.map (fun nm' => (nm', [(d, gpuTag d ++ nm')])), e.1 ≠ nm := by
      intro e he
      rw [List.mem_map] at he
      obtain ⟨x, hx, rfl⟩ := he
      exact hdone_ne x hx
    rw [groupedInsert_of_not_mem hnot]
    have hrepack :
        done.map (fun nm' => (nm', [(d, gpuTag d ++ nm')])) ++ [(nm, [(d, gpuTag d ++ nm)])]
        = (done ++ [nm]).map (fun nm' => (nm', [(d, gpuTag d ++ nm')])) := by
      simp
    rw [hrepack]
    have hdev' : ∀ k, k < ns'.length → (devices[(i + 1 + k) / npd]?).getD 0 = d := by
      intro k hk
      have := hdev (k + 1) (by simp; omega)
      have harith : i + (k + 1) = i + 1 + k := by omega
      rwa [harith] at this
    have hnm' : ∀ x ∈ (done ++ [nm]) ++ ns', ∀ c ∈ x, c ≠ sep := by
      intro x hx
      apply hnm
      simp only [List.append_assoc, List.singleton_append] at hx ⊢
      exact hx
    have hdis' : ((done ++ [nm]) ++ ns').Pairwise (· ≠ ·) := by
      simp only [List.append_assoc, List.singleton_append]
      exact hdis
    have := ih (done ++ [nm]) (i + 1) hdev' hnm' hdis'
    rw [this]
    simp

theorem blockParams_cons {d : Nat} {ds : List Nat} {names : List Name} :
    blockParams (d :: ds) names
      = names.map (fun nm => gpuTag d ++ nm) ++ blockParams ds names := by
  simp [blockParams]

theorem blockParams_length {devices : List Nat} {names : List Name} :
    (blockParams devices names).length = devices.length * names.length := by
  induction devices with
  | nil => simp [blockParams]
  | cons d ds ih =>
    rw [blockParams_cons]
    simp only [List.length_append, List.length_map, List.length_cons, ih]
    ring

theorem blockParams_nil {devices : List Nat} : blockParams devices [] = [] := by
  induction devices with
  | nil => simp [blockParams]
  | cons a b ihd => rw [blockParams_cons]; simpa using ihd

theorem blockParams_getElem :
    ∀ (devices : List Nat) (names : List Name) (k : Nat) (p : Name),
    (blockParams devices names)[k]? = some p →
    ∃ dv nm, devices[k / names.length]? = some dv ∧ nm ∈ names ∧ p = gpuTag dv ++ nm := by
  intro devices
  induction devices with
  | nil => intro names k p hp; simp [blockParams] at hp
  | cons d ds ih =>
    intro names k p hp
    by_cases hN : names = []
    · subst hN
      rw [blockParams_nil] at hp
      simp at hp
    · have hnl : 0 < names.length := List.length_pos.mpr hN
      rw [blockParams_cons, List.getElem?_append] at hp
      by_cases hk : k < (names.map (fun nm => gpuTag d ++ nm)).length
      · rw [if_pos hk] at hp
        rw [List.getElem?_map] at hp
        cases hnk : names[k]? with
        | none => rw [hnk] at hp; simp at hp
        | some nm =>
          rw [hnk] at hp
          simp only [Option.map_some'] at hp
          refine ⟨d, nm, ?_, ?_, (Option.some.inj hp).symm⟩
          · have hklt : k < names.length := by simpa using hk
            rw [Nat.div_eq_of_lt hklt]
            simp
          · have hklt : k < names.length := by simpa using hk
            have := List.getElem?_eq_some_iff.mp hnk
            obtain ⟨hlt, hget⟩ := this
            rw [← hget]
            exact List.getElem_mem hlt
      · rw [if_neg hk] at hp
        have hklen : names.length ≤ k := by
          simp only [List.length_map] at hk
          omega
        have hrec := ih names (k - (names.map (fun nm => gpuTag d ++ nm)).length) p hp
        obtain ⟨dv, nm, hdv, hnm, hpe⟩ := hrec
        refine ⟨dv, nm, ?_, hnm, hpe⟩
        rw [Nat.div_eq_sub_div hnl hklen]
        simp only [List.length_map] at hdv ⊢
        rw [List.getElem?_cons_succ]
        exact hdv

theorem groupLoop_ok {devices : List Nat} {npd : Nat} :
    ∀ (ps : List Name) (i : Nat) (g : Grouped),
    (∀ k p, ps[k]? = some p → ∃ dv, devices[(i + k) / npd]? = some dv ∧
       hasSub (gpuTag dv) (getNameScope p) = true) →
    groupLoop devices npd i ps g = .ok (groupFold devices npd i ps g) := by
  intro ps
  induction ps with
  | nil => intro i g _; rfl
  | cons p ps' ih =>
    intro i g h
    obtain ⟨dv, hdv, hsub⟩ := h 0 p (by simp)
    rw [Nat.add_zero] at hdv
    simp only [groupLoop, groupFold, hdv, Option.getD_some, hsub, if_true]
    apply ih
    intro k q hq
    have := h (k + 1) q (by simpa using hq)
    have harith : i + (k + 1) = i + 1 + k := by omega
    rwa [harith] at this

theorem checkLoop_block {d0 : Nat} {ds' : List Nat} {params : List Name} :
    ∀ (suffix : List Name) (j : Nat),
    (∀ k nmk, suffix[k]? = some nmk → params[j + k]? = some (gpuTag d0 ++ nmk)) →
    checkLoop (d0 :: ds') params j
        (suffix.map (fun nm => (nm, (d0 :: ds').map (fun dd => (dd, gpuTag dd ++ nm)))))
      = .ok () := by
  intro suffix
  induction suffix with
  | nil => intro j _; rfl
  | cons nm rest ih =>
    intro j h
    have hp : params[j]? = some (gpuTag d0 ++ nm) := by
      have := h 0 nm (by simp)
      simpa using this
    simp only [List.map_cons, checkLoop, List.length_map, List.length_cons,
      List.head?_cons, hp, if_true, if_pos rfl]
    have hlook : List.lookup d0 ((d0, gpuTag d0 ++ nm) :: ds'.map (fun dd => (dd, gpuTag dd ++ nm)))
        = some (gpuTag d0 ++ nm) := by
      simp [List.lookup]
    rw [hlook]
    simp only [if_pos rfl]
    apply ih
    intro k nmk hk
    have := h (k + 1) nmk (by simpa using hk)
    have harith : j + (k + 1) = j + 1 + k := by omega
    rwa [harith] at this

theorem foldBlocks {names : List Name} (hN : names ≠ [])
    (hnm : ∀ nm ∈ names, ∀ c ∈ nm, c ≠ sep) (hdisN : names.Pairwise (· ≠ ·)) :
    ∀ (ds dsDone devices : List Nat),
    devices = dsDone ++ ds → devices.Pairwise (· ≠ ·) →
    groupFold devices names.length (dsDone.length * names.length)
        (blockParams ds names)
        (names.map (fun nm => (nm, dsDone.map (fun dd => (dd, gpuTag dd ++ nm)))))
      = names.map (fun nm => (nm, devices.map (fun dd => (dd, gpuTag dd ++ nm)))) := by
  intro ds
  induction ds with
  | nil =>
    intro dsDone devices hdev _
    subst hdev
    simp [blockParams, groupFold]
  | cons d ds' ih =>
    intro dsDone devices hdev hdis
    have hnl : 0 < names.length := by
      cases names with
      | nil => exact absurd rfl hN
      | cons a b => simp
    rw [blockParams_cons, groupFold_append]
    have hdevk : ∀ k, k < names.length →
        (devices[(dsDone.length * names.length + k) / names.length]?).getD 0 = d := by
      intro k hk
      have harith : dsDone.length * names.length + k = k + names.length * dsDone.length := by
        ring
      rw [harith, Nat.add_mul_div_left _ _ hnl, Nat.div_eq_of_lt hk, Nat.zero_add]
      subst hdev
      rw [List.getElem?_append]
      rw [if_neg (by omega)]
      simp
    have hdnot : ∀ nm : Name, ∀ e ∈ dsDone.map (fun dd => (dd, gpuTag dd ++ nm)), e.1 ≠ d := by
      intro nm e he
      rw [List.mem_map] at he
      obtain ⟨dd, hdd, rfl⟩ := he
      subst hdev
      rw [List.pairwise_append] at hdis
      exact hdis.2.2 dd hdd d (by simp)
    have hstep := @foldBlockLater devices names.length d
      (fun nm => dsDone.map (fun dd => (dd, gpuTag dd ++ nm)))
      names [] (dsDone.length * names.length) hdevk (by simpa using hnm) (by simpa using hdisN)
      hdnot
    simp only [List.map_nil, List.nil_append] at hstep
    rw [hstep]
    have hrepack : (names.map (fun nm =>
        (nm, dsDone.map (fun dd => (dd, gpuTag dd ++ nm)) ++ [(d, gpuTag d ++ nm)])))
        = names.map (fun nm => (nm, (dsDone ++ [d]).map (fun dd => (dd, gpuTag dd ++ nm)))) := by
      simp
    rw [hrepack]
    have harith2 : dsDone.length * names.length + names.length
        = (dsDone ++ [d]).length * names.length := by
      simp
      ring
    simp only [List.length_map]
    rw [harith2]
    exact ih (dsDone ++ [d]) devices (by simp [hdev]) hdis

theorem groupFold_block {devices : List Nat} {names : List Name} (hD : devices ≠ [])
    (hdisD : devices.Pairwise (· ≠ ·)) (hdisN : names.Pairwise (· ≠ ·))
    (hnm : ∀ nm ∈ names, ∀ c ∈ nm, c ≠ sep) :
    groupFold devices names.length 0 (blockParams devices names) []
      = blockGrouped devices names := by
  by_cases hN : names = []
  · subst hN
    rw [blockParams_nil]
    simp [blockGrouped, groupFold]
  · have hnl : 0 < names.length := List.length_pos.mpr hN
    obtain ⟨d0, ds', rfl⟩ : ∃ d0 ds', devices = d0 :: ds' := by
      cases devices with
      | nil => exact absurd rfl hD
      | cons a b => exact ⟨a, b, rfl⟩
    rw [blockParams_cons, groupFold_append]
    have hdevk : ∀ k, k < names.length →
        (((d0 :: ds')[(0 + k) / names.length]?).getD 0) = d0 := by
      intro k hk
      rw [Nat.zero_add, Nat.div_eq_of_lt hk]
      simp
    have hfirst := @foldBlockFirst (d0 :: ds') names.length d0
      names [] 0 hdevk (by simpa using hnm) (by simpa using hdisN)
    simp only [List.map_nil, List.nil_append] at hfirst
    rw [hfirst]
    have hrepack : names.map (fun nm => (nm, [(d0, gpuTag d0 ++ nm)]))
        = names.map (fun nm => (nm, [d0].map (fun dd => (dd, gpuTag dd ++ nm)))) := by
      simp
    rw [hrepack]
    have hblocks := foldBlocks hN hnm hdisN ds' [d0] (d0 :: ds') (by simp) hdisD
    simp only [List.length_cons, List.length_nil, Nat.zero_add, Nat.one_mul] at hblocks
    simp only [List.length_map, Nat.zero_add]
    rw [hblocks]
    rfl

theorem groupByDevice_block {devices : List Nat} {names : List Name} (hD : devices ≠ [])
    (hdisD : devices.Pairwise (· ≠ ·)) (hdisN : names.Pairwise (· ≠ ·))
    (hnm : ∀ nm ∈ names, ∀ c ∈ nm, c ≠ sep) :
    groupByDevice devices (blockParams devices names) = .ok (blockGrouped devices names) := by
  have hDlen : devices.length ≠ 0 := by
    cases devices with
    | nil => exact absurd rfl hD
    | cons a b => simp
  have hdvd : (blockParams devices names).length % devices.length = 0 := by
    rw [blockParams_length]; exact Nat.mul_mod_right _ _
  have hnpd : (blockParams devices names).length / devices.length = names.length := by
    rw [blockParams_length]; exact Nat.mul_div_cancel_left _ (Nat.pos_of_ne_zero hDlen)
  unfold groupByDevice
  rw [if_neg hDlen, if_neg (by simp [hdvd]), hnpd]
  have hloop := @groupLoop_ok devices names.length
    (blockParams devices names) 0 [] ?checks
  case checks =>
    intro k p hp
    obtain ⟨dv, nm, hdv, hnmm, rfl⟩ := blockParams_getElem devices names k p hp
    refine ⟨dv, ?_, ?_⟩
    · rw [Nat.zero_add]; exact hdv
    · rw [scope_gpuTag_append (hnm nm hnmm)]
      exact hasSub_iff.mpr (List.infix_refl _)
  rw [hloop, groupFold_block hD hdisD hdisN hnm]
  obtain ⟨d0, ds', rfl⟩ : ∃ d0 ds', devices = d0 :: ds' := by
    cases devices with
    | nil => exact absurd rfl hD
    | cons a b => exact ⟨a, b, rfl⟩
  have hcheck := @checkLoop_block d0 ds'
    (blockParams (d0 :: ds') names) names 0 ?hpar
  case hpar =>
    intro k nmk hk
    have hklt : k < names.length := by
      have := List.getElem?_eq_some_iff.mp hk
      exact this.1
    rw [Nat.zero_add, blockParams_cons, List.getElem?_append,
      if_pos (by simpa using hklt), List.getElem?_map, hk]
    rfl
  have hbg : blockGrouped (d0 :: ds') names
      = names.map (fun nm => (nm, (d0 :: ds').map (fun dd => (dd, gpuTag dd ++ nm)))) := rfl
  rw [hbg]
  simp only [hcheck]

theorem indexOfName_of_pairwise {l : List Name} :
    ∀ {j : Nat} {nm : Name}, l.Pairwise (· ≠ ·) → l[j]? = some nm →
    indexOfName nm l = j := by
  induction l with
  | nil => intro j nm _ h; simp at h
  | cons a rest ih =>
    intro j nm hp h
    cases j with
    | zero =>
      rw [List.getElem?_cons_zero] at h
      have := Option.some.inj h
      subst this
      simp [indexOfName]
    | succ j' =>
      rw [List.getElem?_cons_succ] at h
      have hmem : nm ∈ rest := by
        obtain ⟨hlt, hget⟩ := List.getElem?_eq_some_iff.mp h
        rw [← hget]
        exact List.getElem_mem hlt
      have hne : a ≠ nm := (List.pairwise_cons.mp hp).1 nm hmem
      rw [indexOfName, if_neg hne, ih (List.pairwise_cons.mp hp).2 h]

theorem indexOfName_append_of_mem {nm : Name} {l₁ l₂ : List Name} (h : nm ∈ l₁) :
    indexOfName nm (l₁ ++ l₂) = indexOfName nm l₁ := by
  induction l₁ with
  | nil => simp at h
  | cons a rest ih =>
    by_cases ha : a = nm
    · simp [indexOfName, ha]
    · rw [List.cons_append, indexOfName, if_neg ha, indexOfName, if_neg ha,
        ih (by rcases List.mem_cons.mp h with h1 | h1; exact absurd h1.symm ha; exact h1)]

theorem blockParams_map_strip {devices : List Nat} {names : List Name}
    (hnm : ∀ nm ∈ names, ∀ c ∈ nm, c ≠ sep) :
    (blockParams devices names).map stripParamName
      = devices.flatMap (fun _ => names) := by
  induction devices with
  | nil => simp [blockParams]
  | cons d ds ih =>
    rw [blockParams_cons, List.map_append, List.flatMap_cons, ih]
    congr 1
    rw [List.map_map]
    have hcong : ∀ nm ∈ names,
        (stripParamName ∘ fun nm => gpuTag d ++ nm) nm = id nm := by
      intro nm h
      simp only [Function.comp_apply, id]
      exact strip_gpuTag_append (hnm nm h)
    rw [List.map_congr_left hcong, List.map_id]

/-- C2: for a device list `D` and handles laid out in `|D|` contiguous
per-device blocks with matching device namescopes, `_GroupByDevice` succeeds
and returns exactly `|P| / |D|` keys, each with exactly one handle per device,
and the handle filed under `D[0]` is the original input at the key's
first-occurrence position. -/
theorem c2_group_by_device_block_layout (devices : List Nat) (names : List Name)
    (hD : devices ≠ []) (hdisD : devices.Pairwise (· ≠ ·))
    (hdisN : names.Pairwise (· ≠ ·)) (hnm : ∀ nm ∈ names, ∀ c ∈ nm, c ≠ sep) :
    ∃ g, groupByDevice devices (blockParams devices names) = .ok g ∧
      g.length = (blockParams devices names).length / devices.length ∧
      (∀ e ∈ g, e.2.length = devices.length) ∧
      (∀ j e, g[j]? = some e →
        ∃ d0, devices.head? = some d0 ∧
          List.lookup d0 e.2 = (blockParams devices names)[j]? ∧
          indexOfName e.1 ((blockParams devices names).map stripParamName) = j) := by
  refine ⟨blockGrouped devices names, groupByDevice_block hD hdisD hdisN hnm, ?_, ?_, ?_⟩
  · have hDlen : devices.length ≠ 0 := by
      cases devices with
      | nil => exact absurd rfl hD
      | cons a b => simp
    rw [blockParams_length, Nat.mul_div_cancel_left _ (Nat.pos_of_ne_zero hDlen)]
    simp [blockGrouped]
  · intro e he
    rw [blockGrouped, List.mem_map] at he
    obtain ⟨nm, _, rfl⟩ := he
    simp
  · intro j e he
    obtain ⟨d0, ds', rfl⟩ : ∃ d0 ds', devices = d0 :: ds' := by
      cases devices with
      | nil => exact absurd rfl hD
      | cons a b => exact ⟨a, b, rfl⟩
    rw [blockGrouped, List.getElem?_map] at he
    cases hnj : names[j]? with
    | none => rw [hnj] at he; simp at he
    | some nm =>
      rw [hnj] at he
      rw [Option.map_some'] at he
      have he' := Option.some.inj he
      subst he'
      have hjlt : j < names.length := (List.getElem?_eq_some_iff.mp hnj).1
      have hmem : nm ∈ names := by
        obtain ⟨hlt, hget⟩ := List.getElem?_eq_some_iff.mp hnj
        rw [← hget]
        exact List.getElem_mem hlt
      refine ⟨d0, by simp, ?_, ?_⟩
      · have hlk : List.lookup d0
            ((d0 :: ds').map (fun dd => (dd, gpuTag dd ++ nm))) = some (gpuTag d0 ++ nm) := by
          simp [List.lookup]
        rw [hlk, blockParams_cons, List.getElem?_append,
          if_pos (by simpa using hjlt), List.getElem?_map, hnj]
        rfl
      · show indexOfName nm ((blockParams (d0 :: ds') names).map stripParamName) = j
        rw [blockParams_map_strip hnm, List.flatMap_cons,
          indexOfName_append_of_mem hmem]
        exact indexOfName_of_pairwise hdisN hnj

/-- Closed witness for `c2_group_by_device_block_layout` at devices `[0, 1]`
and canonical names `[[w], [b]]`. -/
theorem c2_group_by_device_block_layout_witness :
    ([0, 1] : List Nat) ≠ [] ∧
    ∃ g, groupByDevice [0, 1] (blockParams [0, 1] [['w'], ['b']]) = .ok g ∧
      g.length = (blockParams [0, 1] [['w'], ['b']]).length / 2 ∧
      (∀ e ∈ g, e.2.length = 2) ∧
      (∀ j e, g[j]? = some e →
        ∃ d0, ([0, 1] : List Nat).head? = some d0 ∧
          List.lookup d0 e.2 = (blockParams [0, 1] [['w'], ['b']])[j]? ∧
          indexOfName e.1 ((blockParams [0, 1] [['w'], ['b']]).map stripParamName) = j) := by
  refine ⟨by decide, ?_⟩
  exact c2_group_by_device_block_layout [0, 1] [['w'], ['b']] (by decide) (by decide)
    (by decide) (by decide)

/-- C4: when the gradient binding is inserted in parameter-list order (so the
block-ordered gradient handles are exactly `blockParams devices gs`), the
reduction order `_GetReverseOrderedGrads` produces from the grouped gradient
keys is exactly the reverse of the binding insertion order `gs`. -/
theorem c4_reduction_order (devices : List Nat) (params : List Name)
    (paramToGrad : List (Name × Name)) (gs : List Name)
    (hD : devices ≠ []) (hdisD : devices.Pairwise (· ≠ ·))
    (hdisG : gs.Pairwise (· ≠ ·)) (hg : ∀ nm ∈ gs, ∀ c ∈ nm, c ≠ sep)
    (hbind : gradsOrdered params paramToGrad = blockParams devices gs) :
    ∃ grouped, groupByDevice devices (gradsOrdered params paramToGrad) = .ok grouped ∧
      getReverseOrderedGrads (groupedKeys grouped) = gs.reverse := by
  rw [hbind]
  refine ⟨blockGrouped devices gs, groupByDevice_block hD hdisD hdisG hg, ?_⟩
  rw [getReverseOrderedGrads, groupedKeys, blockGrouped, List.map_map]
  have hcong : ∀ nm ∈ gs,
      (Prod.fst ∘ fun nm => (nm, devices.map (fun d => (d, gpuTag d ++ nm)))) nm = id nm := by
    intro nm _
    rfl
  rw [List.map_congr_left hcong, List.map_id]

/-- Closed witness for `c4_reduction_order`: parameters `w1, w2, w3` binding
gradients `g1, g2, g3` in that order on devices `[0, 1]` reduce in order
`[g3, g2, g1]`. -/
theorem c4_reduction_order_witness :
    gradsOrdered (blockParams [0, 1] [['w', '1'], ['w', '2'], ['w', '3']])
        (List.zip (blockParams [0, 1] [['w', '1'], ['w', '2'], ['w', '3']])
          (blockParams [0, 1] [['g', '1'], ['g', '2'], ['g', '3']]))
      = blockParams [0, 1] [['g', '1'], ['g', '2'], ['g', '3']] ∧
    ∃ grouped, groupByDevice [0, 1]
        (gradsOrdered (blockParams [0, 1] [['w', '1'], ['w', '2'], ['w', '3']])
          (List.zip (blockParams [0, 1] [['w', '1'], ['w', '2'], ['w', '3']])
            (blockParams [0, 1] [['g', '1'], ['g', '2'], ['g', '3']])))
        = .ok grouped ∧
      getReverseOrderedGrads (groupedKeys grouped)
        = [['g', '1'], ['g', '2'], ['g', '3']].reverse := by
  refine ⟨by decide, ?_⟩
  exact c4_reduction_order [0, 1] _ _ [['g', '1'], ['g', '2'], ['g', '3']]
    (by decide) (by decide) (by decide) (by decide) (by decide)

theorem groupLoop_error_iff {devices : List Nat} {npd : Nat} :
    ∀ (ps : List Name) (i : Nat) (g : Grouped),
    (∃ e, groupLoop devices npd i ps g = .error e) ↔
    (∃ k p, ps[k]? = some p ∧
      (devices[(i + k) / npd]? = none ∨
       ∃ dv, devices[(i + k) / npd]? = some dv ∧
         hasSub (gpuTag dv) (getNameScope p) = false)) := by
  intro ps
  induction ps with
  | nil =>
    intro i g
    constructor
    · rintro ⟨e, he⟩
      exact absurd he (by simp [groupLoop])
    · rintro ⟨k, p, hk, _⟩
      simp at hk
  | cons p ps' ih =>
    intro i g
    cases hdv : devices[i / npd]? with
    | none =>
      constructor
      · intro _
        exact ⟨0, p, by simp, by rw [Nat.add_zero]; exact Or.inl hdv⟩
      · intro _
        exact ⟨.deviceIndex, by simp [groupLoop, hdv]⟩
    | some dv =>
      cases hsub : hasSub (gpuTag dv) (getNameScope p) with
      | false =>
        constructor
        · intro _
          exact ⟨0, p, by simp, by rw [Nat.add_zero]; exact Or.inr ⟨dv, hdv, hsub⟩⟩
        · intro _
          exact ⟨.scopeMismatch i p, by simp [groupLoop, hdv, hsub]⟩
      | true =>
        have hred : groupLoop devices npd i (p :: ps') g
            = groupLoop devices npd (i + 1) ps'
                (groupedInsert (stripParamName p) dv p g) := by
          simp [groupLoop, hdv, hsub]
        constructor
        · intro hE
          rw [hred] at hE
          obtain ⟨k, q, hkq, hc⟩ :=
            (ih (i + 1) (groupedInsert (stripParamName p) dv p g)).mp hE
          refine ⟨k + 1, q, by simpa using hkq, ?_⟩
          have harith : i + (k + 1) = i + 1 + k := by omega
          rw [harith]
          exact hc
        · rintro ⟨k, q, hkq, hc⟩
          cases k with
          | zero =>
            rw [List.getElem?_cons_zero] at hkq
            obtain rfl := Option.some.inj hkq
            rw [Nat.add_zero] at hc
            rcases hc with h1 | ⟨dv', hdv', hsub'⟩
            · rw [hdv] at h1
              exact absurd h1 (by simp)
            · rw [hdv] at hdv'
              obtain rfl := Option.some.inj hdv'
              rw [hsub] at hsub'
              exact absurd hsub' (by simp)
          | succ k' =>
            rw [List.getElem?_cons_succ] at hkq
            rw [hred]
            apply (ih (i + 1) (groupedInsert (stripParamName p) dv p g)).mpr
            refine ⟨k', q, hkq, ?_⟩
            have harith : i + 1 + k' = i + (k' + 1) := by omega
            rw [harith]
            exact hc

theorem checkLoop_error_iff {devices : List Nat} {params : List Name} {d0 : Nat}
    (hhd : devices.head? = some d0) :
    ∀ (entries : Grouped) (j : Nat),
    (∃ er, checkLoop devices params j entries = .error er) ↔
    (∃ k e, entries[k]? = some e ∧
      (e.2.length ≠ devices.length ∨
       params[j + k]? = none ∨
       ∃ p, params[j + k]? = some p ∧ List.lookup d0 e.2 ≠ some p)) := by
  intro entries
  induction entries with
  | nil =>
    intro j
    constructor
    · rintro ⟨er, h⟩
      exact absurd h (by simp [checkLoop])
    · rintro ⟨k, e, hk, _⟩
      simp at hk
  | cons ent rest ih =>
    intro j
    obtain ⟨key, tbl⟩ := ent
    by_cases hcnt : tbl.length = devices.length
    · cases hpj : params[j]? with
      | none =>
        constructor
        · intro _
          refine ⟨0, (key, tbl), by simp, Or.inr (Or.inl ?_)⟩
          rw [Nat.add_zero]
          exact hpj
        · intro _
          exact ⟨.paramIndex, by simp [checkLoop, hcnt, hhd, hpj]⟩
      | some pj =>
        cases hlk : List.lookup d0 tbl with
        | none =>
          constructor
          · intro _
            refine ⟨0, (key, tbl), by simp,
              Or.inr (Or.inr ⟨pj, by rw [Nat.add_zero]; exact hpj, ?_⟩)⟩
            show List.lookup d0 tbl ≠ some pj
            rw [hlk]
            simp
          · intro _
            exact ⟨.masterMissing key, by simp [checkLoop, hcnt, hhd, hpj, hlk]⟩
        | some v =>
          by_cases hv : v = pj
          · have hred : checkLoop devices params j ((key, tbl) :: rest)
                = checkLoop devices params (j + 1) rest := by
              simp [checkLoop, hcnt, hhd, hpj, hlk, hv]
            constructor
            · intro hE
              rw [hred] at hE
              obtain ⟨k, e, hk, hc⟩ := (ih (j + 1)).mp hE
              refine ⟨k + 1, e, by simpa using hk, ?_⟩
              have harith : j + (k + 1) = j + 1 + k := by omega
              rw [harith]
              exact hc
            · rintro ⟨k, e, hk, hc⟩
              cases k with
              | zero =>
                rw [List.getElem?_cons_zero] at hk
                obtain rfl := Option.some.inj hk
                rw [Nat.add_zero] at hc
                rcases hc with h1 | h1 | ⟨p', hp', hlk'⟩
                · exact absurd hcnt h1
                · rw [hpj] at h1
                  exact absurd h1 (by simp)
                · rw [hpj] at hp'
                  obtain rfl := Option.some.inj hp'
                  have hsome : List.lookup d0 tbl = some pj := by rw [hlk, hv]
                  exact absurd hsome hlk'
              | succ k' =>
                rw [List.getElem?_cons_succ] at hk
                rw [hred]
                apply (ih (j + 1)).mpr
                refine ⟨k', e, hk, ?_⟩
                have harith : j + 1 + k' = j + (k' + 1) := by omega
                rw [harith]
                exact hc
          · constructor
            · intro _
              refine ⟨0, (key, tbl), by simp,
                Or.inr (Or.inr ⟨pj, by rw [Nat.add_zero]; exact hpj, ?_⟩)⟩
              show List.lookup d0 tbl ≠ some pj
              rw [hlk]
              simp [hv]
            · intro _
              exact ⟨.orderMismatch key, by simp [checkLoop, hcnt, hhd, hpj, hlk, hv]⟩
    · constructor
      · intro _
        exact ⟨0, (key, tbl), by simp, Or.inl hcnt⟩
      · intro _
        exact ⟨.countMismatch key, by simp [checkLoop, hcnt]⟩

theorem groupedInsert_length_le {key : Name} {d : Nat} {v : Name} {g : Grouped} :
    (groupedInsert key d v g).length ≤ g.length + 1 := by
  induction g with
  | nil => simp [groupedInsert]
  | cons e rest ih =>
    obtain ⟨k, tbl⟩ := e
    by_cases hk : k = key
    · simp [groupedInsert, hk]
    · simp only [groupedInsert, if_neg hk, List.length_cons]
      omega

theorem groupFold_length_le {devices : List Nat} {npd : Nat} :
    ∀ (ps : List Name) (i : Nat) (g : Grouped),
    (groupFold devices npd i ps g).length ≤ g.length + ps.length := by
  intro ps
  induction ps with
  | nil => intro i g; simp [groupFold]
  | cons p ps' ih =>
    intro i g
    have h1 := ih (i + 1) (groupedInsert (stripParamName p) ((devices[i / npd]?).getD 0) p g)
    have h2 := @groupedInsert_length_le (stripParamName p)
      ((devices[i / npd]?).getD 0) p g
    simp only [groupFold, List.length_cons]
    omega

theorem block_index_lt {devices : List Nat} {params : List Name}
    (hA : params.length % devices.length = 0) {k : Nat} (hk : k < params.length) :
    k / (params.length / devices.length) < devices.length := by
  have hnpd0 : 0 < params.length / devices.length := by
    rcases Nat.eq_zero_or_pos (params.length / devices.length) with h0 | h
    · exfalso
      have hdvd := Nat.dvd_of_mod_eq_zero hA
      have := Nat.div_mul_cancel hdvd
      rw [h0] at this
      omega
    · exact h
  rw [Nat.div_lt_iff_lt_mul hnpd0]
  have hdvd := Nat.dvd_of_mod_eq_zero hA
  have hmul := Nat.div_mul_cancel hdvd
  calc k < params.length := hk
    _ = params.length / devices.length * devices.length := hmul.symm
    _ = devices.length * (params.length / devices.length) := by ring

/-- C3 (amended): `_GroupByDevice` fails exactly when the handle count is not
divisible by the device count, or some handle's namescope disagrees with its
positional device, or some key ends up with a number of per-device entries
different from the device count, or the ordering-fidelity check
`ps[devices[0]] == params[j]` fails for some key. -/
theorem c3_grouping_error_iff (devices : List Nat) (params : List Name)
    (hD : devices ≠ []) :
    (∃ e, groupByDevice devices params = .error e) ↔
      (params.length % devices.length ≠ 0 ∨ scopeViolation devices params ∨
       countViolation devices params ∨ orderViolation devices params) := by
  have hDlen : devices.length ≠ 0 := by
    cases devices with
    | nil => exact absurd rfl hD
    | cons a b => simp
  obtain ⟨d0, hhd⟩ : ∃ d0, devices.head? = some d0 := by
    cases devices with
    | nil => exact absurd rfl hD
    | cons a b => exact ⟨a, by simp⟩
  unfold groupByDevice
  rw [if_neg hDlen]
  by_cases hA : params.length % devices.length = 0
  · rw [if_neg (not_ne_iff.mpr hA)]
    by_cases hloop : ∃ e,
        groupLoop devices (params.length / devices.length) 0 params [] = .error e
    · obtain ⟨e, he⟩ := hloop
      rw [he]
      constructor
      · intro _
        obtain ⟨k, p, hkp, hc⟩ := (groupLoop_error_iff params 0 []).mp ⟨e, he⟩
        rcases hc with hnone | ⟨dv, hdv, hsub⟩
        · exfalso
          rw [Nat.zero_add] at hnone
          have hklt : k < params.length := (List.getElem?_eq_some_iff.mp hkp).1
          have := block_index_lt hA hklt
          rw [List.getElem?_eq_none_iff] at hnone
          omega
        · right; left
          exact ⟨k, p, dv, hkp, by rw [Nat.zero_add] at hdv; exact hdv, hsub⟩
      · intro _
        exact ⟨e, rfl⟩
    · have hok : groupLoop devices (params.length / devices.length) 0 params []
          = .ok (groupedOf devices params) := by
        apply groupLoop_ok
        intro k p hkp
        cases hdv : devices[(0 + k) / (params.length / devices.length)]? with
        | none =>
          exact absurd ((groupLoop_error_iff params 0 []).mpr
            ⟨k, p, hkp, Or.inl hdv⟩) hloop
        | some dv =>
          cases hsub : hasSub (gpuTag dv) (getNameScope p) with
          | false =>
            exact absurd ((groupLoop_error_iff params 0 []).mpr
              ⟨k, p, hkp, Or.inr ⟨dv, hdv, hsub⟩⟩) hloop
          | true => exact ⟨dv, rfl, hsub⟩
      rw [hok]
      by_cases hchk : ∃ er,
          checkLoop devices params 0 (groupedOf devices params) = .error er
      · obtain ⟨er, her⟩ := hchk
        simp only [her]
        constructor
        · intro _
          obtain ⟨k, e, hk, hc⟩ := ((checkLoop_error_iff hhd) _ 0).mp ⟨er, her⟩
          rcases hc with h1 | h1 | ⟨p, hp, hlk⟩
          · right; right; left
            exact ⟨e, List.mem_iff_getElem?.mpr ⟨k, hk⟩, h1⟩
          · exfalso
            have hklt : k < (groupedOf devices params).length :=
              (List.getElem?_eq_some_iff.mp hk).1
            have hle : (groupedOf devices params).length ≤ params.length := by
              have := @groupFold_length_le devices
                (params.length / devices.length) params 0 []
              simpa [groupedOf] using this
            rw [Nat.zero_add, List.getElem?_eq_none_iff] at h1
            omega
          · right; right; right
            exact ⟨k, e, p, d0, hhd, hk, by rw [Nat.zero_add] at hp; exact hp, hlk⟩
        · intro _
          exact ⟨er, rfl⟩
      · have hchkok : checkLoop devices params 0 (groupedOf devices params) = .ok () := by
          cases hres : checkLoop devices params 0 (groupedOf devices params) with
          | error er => exact absurd ⟨er, hres⟩ hchk
          | ok u => cases u; rfl
        simp only [hchkok]
        constructor
        · rintro ⟨e, he⟩
          exact absurd he (by simp)
        · rintro (h | h | h | h)
          · exact absurd hA h
          · obtain ⟨k, p, dv, hkp, hdv, hsub⟩ := h
            exact absurd ((groupLoop_error_iff params 0 []).mpr
              ⟨k, p, hkp, Or.inr ⟨dv, by rw [Nat.zero_add]; exact hdv, hsub⟩⟩) hloop
          · obtain ⟨e, hmem, hlen⟩ := h
            obtain ⟨k, hk⟩ := List.getElem?_of_mem hmem
            exact absurd (((checkLoop_error_iff hhd) _ 0).mpr
              ⟨k, e, hk, Or.inl hlen⟩) hchk
          · obtain ⟨j, e, p, d0', hd0', hj, hp, hlk⟩ := h
            rw [hhd] at hd0'
            obtain rfl := Option.some.inj hd0'
            exact absurd (((checkLoop_error_iff hhd) _ 0).mpr
              ⟨j, e, hj, Or.inr (Or.inr ⟨p, by rw [Nat.zero_add]; exact hp, hlk⟩)⟩) hchk
  · rw [if_pos hA]
    constructor
    · intro _
      exact Or.inl hA
    · intro _
      exact ⟨.notDivisible, rfl⟩

/-- Closed witness for `c3_grouping_error_iff` at one device and one handle
whose namescope names the wrong device. -/
theorem c3_grouping_error_iff_witness :
    (([0] : List Nat) ≠ []) ∧
    ((∃ e, groupByDevice [0] [gpuTag 1 ++ ['a']] = .error e) ↔
      (([gpuTag 1 ++ ['a']] : List Name).length % ([0] : List Nat).length ≠ 0 ∨
       scopeViolation [0] [gpuTag 1 ++ ['a']] ∨
       countViolation [0] [gpuTag 1 ++ ['a']] ∨
       orderViolation [0] [gpuTag 1 ++ ['a']])) :=
  ⟨by decide, c3_grouping_error_iff [0] [gpuTag 1 ++ ['a']] (by decide)⟩

theorem scopeViolation_iff {devices : List Nat} {params : List Name} :
    scopeViolation devices params ↔ scopeViolationB devices params = true := by
  constructor
  · rintro ⟨k, p, dv, hk, hdv, hsub⟩
    rw [scopeViolationB, List.any_eq_true]
    refine ⟨k, List.mem_range.mpr (List.getElem?_eq_some_iff.mp hk).1, ?_⟩
    rw [hk, hdv]
    simp [hsub]
  · intro h
    rw [scopeViolationB, List.any_eq_true] at h
    obtain ⟨k, _, hf⟩ := h
    cases hp : params[k]? with
    | none => rw [hp] at hf; simp at hf
    | some p =>
      cases hd : devices[k / (params.length / devices.length)]? with
      | none => rw [hp, hd] at hf; simp at hf
      | some dv =>
        rw [hp, hd] at hf
        refine ⟨k, p, dv, hp, hd, ?_⟩
        simpa using hf

/-- C3 counterexample: `_GroupByDevice` fails with a `GroupingError` on an
input satisfying none of the three failure conditions the claim lists
(count divisible, every per-key entry count equal to the device count, every
namescope matching the positional device) — the ordering-fidelity assert
`ps[devices[0]] == params[j]` also raises. -/
theorem c3_counterexample :
    groupByDevice [0, 1] c3bad = .error (.orderMismatch ['b']) ∧
    c3bad.length % ([0, 1] : List Nat).length = 0 ∧
    ¬ scopeViolation [0, 1] c3bad ∧
    ¬ countViolation [0, 1] c3bad := by
  refine ⟨by decide, by decide, ?_, ?_⟩
  · rw [scopeViolation_iff]
    decide
  · unfold countViolation
    decide

theorem gpuMark_isPrefixOf_tagged {dd : Nat} {rest : Name} :
    gpuMark.isPrefixOf (gpuTag dd ++ rest) = true := by
  rw [List.isPrefixOf_iff_prefix]
  have : gpuTag dd ++ rest = gpuMark ++ (decimal dd ++ [sep] ++ rest) := by
    simp [gpuTag, gpuMark]
  rw [this]
  exact List.prefix_append _ _

theorem tagged_unique {dd dd' : Nat} {rest rest' : Name}
    (h : gpuTag dd ++ rest = gpuTag dd' ++ rest') : dd = dd' := by
  have : gpuTag dd <+: gpuTag dd' ++ rest' := ⟨rest, by rw [← h]⟩
  exact tag_prefix_append_iff.mp this

theorem checkBlobs_spec {opT : Name} {g : Nat} :
    ∀ (bs : List Name),
    (∀ b ∈ bs, (∃ dd rest, b = gpuTag dd ++ rest) ∨ ¬(gpuMark <+: b)) →
    ((checkBlobs (gpuTag g) opT bs = .ok () ↔
       ∀ b ∈ bs, ∀ dd rest, b = gpuTag dd ++ rest → dd = g) ∧
     (∀ e, checkBlobs (gpuTag g) opT bs = .error e →
       e.opType = opT ∧ e.expectedScope = gpuTag g ∧ e.blob ∈ bs ∧
       ∃ dd rest, e.blob = gpuTag dd ++ rest ∧ dd ≠ g)) := by
  intro bs
  induction bs with
  | nil =>
    intro _
    refine ⟨by simp [checkBlobs], ?_⟩
    intro e he
    exact absurd he (by simp [checkBlobs])
  | cons b bs' ih =>
    intro hwfb
    obtain ⟨ihok, iherr⟩ := ih (fun x hx => hwfb x (by simp [hx]))
    have hstep : ∀ (c : Bool), (gpuMark.isPrefixOf b
          && !((gpuTag g).isPrefixOf b)) = c →
        checkBlobs (gpuTag g) opT (b :: bs')
          = if c then .error ⟨b, opT, gpuTag g⟩ else checkBlobs (gpuTag g) opT bs' := by
      intro c hc
      rw [← hc]
      rfl
    rcases hwfb b (by simp) with ⟨dd, rest, hb⟩ | hnot
    · by_cases hdd : dd = g
      · have hpre : (gpuTag g).isPrefixOf b = true := by
          rw [List.isPrefixOf_iff_prefix, hb, ← hdd]
          exact List.prefix_append _ _
        rw [hstep false (by rw [hpre]; simp), if_neg (by simp)]
        constructor
        · rw [ihok]
          constructor
          · intro h x hx dd' rest' hx'
            rcases List.mem_cons.mp hx with h1 | h1
            · subst h1
              rw [hb] at hx'
              exact (tagged_unique hx').symm.trans hdd
            · exact h x h1 dd' rest' hx'
          · intro h x hx dd' rest' hx'
            exact h x (by simp [hx]) dd' rest' hx'
        · intro e he
          obtain ⟨h1, h2, h3, h4⟩ := iherr e he
          exact ⟨h1, h2, by simp [h3], h4⟩
      · have hpre : (gpuTag g).isPrefixOf b = false := by
          rw [← Bool.not_eq_true, List.isPrefixOf_iff_prefix, hb]
          intro hcon
          exact hdd (tag_prefix_append_iff.mp hcon).symm
        have hmk : gpuMark.isPrefixOf b = true := by
          rw [hb]
          exact gpuMark_isPrefixOf_tagged
        rw [hstep true (by rw [hpre, hmk]; rfl), if_pos rfl]
        constructor
        · constructor
          · intro h
            exact absurd h (by simp)
          · intro h
            exact absurd (h b (by simp) dd rest hb) hdd
        · intro e he
          obtain rfl := (Except.error.injEq _ _).mp he
          exact ⟨rfl, rfl, by simp, dd, rest, hb, hdd⟩
    · have hmark : gpuMark.isPrefixOf b = false := by
        rw [← Bool.not_eq_true, List.isPrefixOf_iff_prefix]
        exact hnot
      rw [hstep false (by rw [hmark]; rfl), if_neg (by simp)]
      constructor
      · rw [ihok]
        constructor
        · intro h x hx dd' rest' hx'
          rcases List.mem_cons.mp hx with h1 | h1
          · subst h1
            rw [hx'] at hnot
            exact absurd (List.isPrefixOf_iff_prefix.mp gpuMark_isPrefixOf_tagged) hnot
          · exact h x h1 dd' rest' hx'
        · intro h x hx dd' rest' hx'
          exact h x (by simp [hx]) dd' rest' hx'
      · intro e he
        obtain ⟨h1, h2, h3, h4⟩ := iherr e he
        exact ⟨h1, h2, by simp [h3], h4⟩

/-- C5: on a graph whose tensor names are either device-prefixed or carry no
`gpu_` marker, the device-scope validation pass accepts exactly when every
non-collective, non-copy, non-CPU operator reads and writes only tensors
prefixed with its own device; on rejection the raised violation names the
offending tensor, the operator type, and the expected namescope, and the
offending tensor is prefixed with a different device than the operator's. -/
theorem c5_device_scope_validation (ops : List OperatorDef)
    (hwf : ∀ op ∈ ops, ∀ b ∈ op.inputs ++ op.outputs,
      (∃ dd rest, b = gpuTag dd ++ rest) ∨ ¬(gpuMark <+: b)) :
    (analyzeOperators ops = .ok () ↔
      ∀ op ∈ ops, hasSub "NCCL".data op.opType = false →
        hasSub "Copy".data op.opType = false → op.deviceType ≠ caffeCPU →
        ∀ b ∈ op.inputs ++ op.outputs, ∀ dd rest,
          b = gpuTag dd ++ rest → dd = op.cudaGpuId) ∧
    (∀ e, analyzeOperators ops = .error e →
      ∃ op ∈ ops, e.opType = op.opType ∧ e.expectedScope = gpuTag op.cudaGpuId ∧
        e.blob ∈ op.inputs ++ op.outputs ∧
        ∃ dd rest, e.blob = gpuTag dd ++ rest ∧ dd ≠ op.cudaGpuId) := by
  induction ops with
  | nil =>
    refine ⟨by simp [analyzeOperators], ?_⟩
    intro e he
    exact absurd he (by simp [analyzeOperators])
  | cons op ops' ih =>
    obtain ⟨ihok, iherr⟩ := ih (fun o ho => hwf o (by simp [ho]))
    by_cases hex : (hasSub "NCCL".data op.opType || hasSub "Copy".data op.opType) = true
    · have hred : analyzeOperators (op :: ops') = analyzeOperators ops' := by
        simp [analyzeOperators, analyzeOp, hex]
      rw [hred]
      constructor
      · rw [ihok]
        constructor
        · intro h o ho hn hc hcp
          rcases List.mem_cons.mp ho with h1 | h1
          · exfalso
            rw [h1] at hn hc
            rcases (by simpa using hex : hasSub "NCCL".data op.opType = true
                ∨ hasSub "Copy".data op.opType = true) with h2 | h2
            · rw [hn] at h2; cases h2
            · rw [hc] at h2; cases h2
          · exact h o h1 hn hc hcp
        · intro h o ho
          exact h o (by simp [ho])
      · intro e he
        obtain ⟨o, ho, hrest⟩ := iherr e he
        exact ⟨o, by simp [ho], hrest⟩
    · rw [Bool.not_eq_true] at hex
      by_cases hcpu : op.deviceType = caffeCPU
      · have hred : analyzeOperators (op :: ops') = analyzeOperators ops' := by
          simp [analyzeOperators, analyzeOp, hex, hcpu]
        rw [hred]
        constructor
        · rw [ihok]
          constructor
          · intro h o ho hn hc hcp
            rcases List.mem_cons.mp ho with h1 | h1
            · exact absurd (h1 ▸ hcpu) hcp
            · exact h o h1 hn hc hcp
          · intro h o ho
            exact h o (by simp [ho])
        · intro e he
          obtain ⟨o, ho, hrest⟩ := iherr e he
          exact ⟨o, by simp [ho], hrest⟩
      · have hana : analyzeOp op
            = checkBlobs (gpuTag op.cudaGpuId) op.opType (op.inputs ++ op.outputs) := by
          simp [analyzeOp, hex, hcpu]
        obtain ⟨hn0, hc0⟩ := Bool.or_eq_false_iff.mp hex
        obtain ⟨cbok, cberr⟩ := @checkBlobs_spec op.opType op.cudaGpuId
          (op.inputs ++ op.outputs) (hwf op (by simp))
        cases hres : checkBlobs (gpuTag op.cudaGpuId) op.opType (op.inputs ++ op.outputs) with
        | ok u =>
          cases u
          have hred : analyzeOperators (op :: ops') = analyzeOperators ops' := by
            simp [analyzeOperators, hana, hres]
          rw [hred]
          constructor
          · rw [ihok]
            constructor
            · intro h o ho hn hc hcp
              rcases List.mem_cons.mp ho with h1 | h1
              · subst h1
                exact cbok.mp hres
              · exact h o h1 hn hc hcp
            · intro h o ho
              exact h o (by simp [ho])
          · intro e he
            obtain ⟨o, ho, hrest⟩ := iherr e he
            exact ⟨o, by simp [ho], hrest⟩
        | error e0 =>
          have hred : analyzeOperators (op :: ops') = .error e0 := by
            simp [analyzeOperators, hana, hres]
          rw [hred]
          constructor
          · constructor
            · intro h
              exact absurd h (by simp)
            · intro h
              exfalso
              obtain ⟨h1, h2, h3, dd, rest, hbl, hdd⟩ := cberr e0 hres
              exact hdd (h op (by simp) hn0 hc0 hcpu e0.blob h3 dd rest hbl)
          · intro e he
            obtain rfl := (Except.error.injEq _ _).mp he
            obtain ⟨h1, h2, h3, h4⟩ := cberr e0 hres
            exact ⟨op, by simp, h1, h2, h3, h4⟩

/-- Closed witness for `c5_device_scope_validation`: one `Sum` operator on
device 2 reading `gpu_1/x`. -/
theorem c5_device_scope_validation_witness :
    (∀ op ∈ [(⟨"Sum".data, caffeCUDA, 2, [gpuTag 1 ++ ['x']], []⟩ : OperatorDef)],
      ∀ b ∈ op.inputs ++ op.outputs,
      (∃ dd rest, b = gpuTag dd ++ rest) ∨ ¬(gpuMark <+: b)) ∧
    ((analyzeOperators [⟨"Sum".data, caffeCUDA, 2, [gpuTag 1 ++ ['x']], []⟩] = .ok () ↔
      ∀ op ∈ [(⟨"Sum".data, caffeCUDA, 2, [gpuTag 1 ++ ['x']], []⟩ : OperatorDef)],
        hasSub "NCCL".data op.opType = false →
        hasSub "Copy".data op.opType = false → op.deviceType ≠ caffeCPU →
        ∀ b ∈ op.inputs ++ op.outputs, ∀ dd rest,
          b = gpuTag dd ++ rest → dd = op.cudaGpuId) ∧
    (∀ e, analyzeOperators [⟨"Sum".data, caffeCUDA, 2, [gpuTag 1 ++ ['x']], []⟩] = .error e →
      ∃ op ∈ [(⟨"Sum".data, caffeCUDA, 2, [gpuTag 1 ++ ['x']], []⟩ : OperatorDef)],
        e.opType = op.opType ∧ e.expectedScope = gpuTag op.cudaGpuId ∧
        e.blob ∈ op.inputs ++ op.outputs ∧
        ∃ dd rest, e.blob = gpuTag dd ++ rest ∧ dd ≠ op.cudaGpuId)) := by
  have hwf : ∀ op ∈ [(⟨"Sum".data, caffeCUDA, 2, [gpuTag 1 ++ ['x']], []⟩ : OperatorDef)],
      ∀ b ∈ op.inputs ++ op.outputs,
      (∃ dd rest, b = gpuTag dd ++ rest) ∨ ¬(gpuMark <+: b) := by
    intro op hop b hb
    rw [List.mem_singleton] at hop
    subst hop
    simp only [List.append_nil] at hb
    rw [List.mem_singleton] at hb
    subst hb
    exact Or.inl ⟨1, ['x'], rfl⟩
  exact ⟨hwf, c5_device_scope_validation _ hwf⟩

theorem allReduceLoop_spec {devices : List Nat} {store : Grouped} :
    ∀ (rev : List Name) (lastOut : Option Name),
    (∀ g ∈ rev, ∃ tbl, List.lookup g store = some tbl ∧
      tbl.length = devices.length ∧ tbl ≠ []) →
    ∃ l, allReduceLoop devices store rev lastOut = .ok l ∧
      l.map Prod.fst = rev.map (groupOf store) ∧
      l.map Prod.snd
        = (lastOut :: rev.map (fun g => some (repOf store g))).dropLast := by
  intro rev
  induction rev with
  | nil =>
    intro lastOut _
    exact ⟨[], rfl, rfl, rfl⟩
  | cons g gs ih =>
    intro lastOut hwf
    obtain ⟨tbl, hlk, hlen, hne⟩ := hwf g (by simp)
    have hhead : ∃ rep, (tbl.map Prod.snd).head? = some rep := by
      cases tbl with
      | nil => exact absurd rfl hne
      | cons a b => exact ⟨a.2, by simp⟩
    obtain ⟨rep, hrep⟩ := hhead
    obtain ⟨rest, hres, hfst, hsnd⟩ := ih (some rep) (fun x hx => hwf x (by simp [hx]))
    have hred : allReduceLoop devices store (g :: gs) lastOut
        = .ok ((tbl.map Prod.snd, lastOut) :: rest) := by
      simp only [allReduceLoop, hlk]
      rw [if_pos (by rw [List.length_map]; exact hlen)]
      simp only [hrep, hres]
    have hgrp : groupOf store g = tbl.map Prod.snd := by
      rw [groupOf, hlk]
      rfl
    have hrepg : repOf store g = rep := by
      rw [repOf, hgrp]
      cases hm : tbl.map Prod.snd with
      | nil => rw [hm] at hrep; simp at hrep
      | cons a b =>
        rw [hm] at hrep
        simp only [List.head?_cons] at hrep
        obtain rfl := Option.some.inj hrep
        simp
    refine ⟨(tbl.map Prod.snd, lastOut) :: rest, hred, ?_, ?_⟩
    · simp only [List.map_cons, hfst, hgrp]
    · simp only [List.map_cons, hsnd, hrepg]
      rfl

/-- C6: single-host gradient sync with one device inserts zero collective
ops, and single-host computed-parameter broadcast with one device inserts
zero copies; with more than one device every gradient key (taken in
reduction order) gets exactly one group-wide all-reduce whose control input
is the previous key's representative handle `grads_group[0]` (no control
input for the first), totally ordering successive all-reduces. -/
theorem c6_single_host (devices : List Nat) (store : Grouped)
    (gradNames computedNames : List Name) :
    (devices.length = 1 →
      allReduceGradientsSingleHost devices store gradNames = .ok [] ∧
      broadcastComputedParamsSingleHost devices store computedNames = .ok []) ∧
    (devices.length ≠ 1 →
      (∀ g ∈ getReverseOrderedGrads gradNames, ∃ tbl, List.lookup g store = some tbl ∧
        tbl.length = devices.length ∧ tbl ≠ []) →
      ∃ l, allReduceGradientsSingleHost devices store gradNames = .ok l ∧
        l.length = gradNames.length ∧
        l.map Prod.fst = (getReverseOrderedGrads gradNames).map (groupOf store) ∧
        l.map Prod.snd = (none :: (getReverseOrderedGrads gradNames).map
          (fun g => some (repOf store g))).dropLast) := by
  constructor
  · intro h1
    exact ⟨by rw [allReduceGradientsSingleHost, if_pos h1],
           by rw [broadcastComputedParamsSingleHost, if_pos h1]⟩
  · intro h2 hwf
    obtain ⟨l, hok, hfst, hsnd⟩ :=
      allReduceLoop_spec (getReverseOrderedGrads gradNames) none hwf
    refine ⟨l, ?_, ?_, hfst, hsnd⟩
    · rw [allReduceGradientsSingleHost, if_neg h2]
      exact hok
    · have hlen := congrArg List.length hfst
      simpa [getReverseOrderedGrads] using hlen

/-- Closed witness for `c6_single_host`: one device inserts nothing; two
devices chain one all-reduce per key. -/
theorem c6_single_host_witness :
    (allReduceGradientsSingleHost [0] (blockGrouped [0] [['g']]) [['g']] = .ok [] ∧
     broadcastComputedParamsSingleHost [0] (blockGrouped [0] [['g']]) [['c']] = .ok []) ∧
    (∃ l, allReduceGradientsSingleHost [0, 1] (blockGrouped [0, 1] [['g']]) [['g']] = .ok l ∧
      l.length = ([['g']] : List Name).length ∧
      l.map Prod.fst = (getReverseOrderedGrads [['g']]).map (groupOf (blockGrouped [0, 1] [['g']])) ∧
      l.map Prod.snd = (none :: (getReverseOrderedGrads [['g']]).map
        (fun g => some (repOf (blockGrouped [0, 1] [['g']]) g))).dropLast) := by
  constructor
  · exact (c6_single_host [0] (blockGrouped [0] [['g']]) [['g']] [['c']]).1 (by decide)
  · refine (c6_single_host [0, 1] (blockGrouped [0, 1] [['g']]) [['g']] [['c']]).2
      (by decide) ?_
    intro g hg
    simp only [getReverseOrderedGrads, List.reverse_singleton, List.mem_singleton] at hg
    subst hg
    exact ⟨[(0, gpuTag 0 ++ ['g']), (1, gpuTag 1 ++ ['g'])], by decide, by decide, by decide⟩

theorem range_map_getD (l : List Name) :
    (List.range l.length).map (fun i => l.getD i []) = l := by
  apply List.ext_getElem?
  intro i
  rw [List.getElem?_map]
  by_cases hi : i < l.length
  · rw [List.getElem?_range hi, Option.map_some']
    rw [List.getD_eq_getElem?_getD, List.getElem?_eq_getElem hi]
    rfl
  · rw [List.getElem?_eq_none (by simpa using hi), List.getElem?_eq_none (by omega)]
    rfl

theorem windowState_length {nc : Nat} {rs : List Name} :
    (windowState nc rs).length = min rs.length nc := by
  rw [windowState]
  by_cases h : rs.length < nc
  · rw [if_pos h]
    omega
  · rw [if_neg h]
    simp only [List.length_map, List.length_range]
    omega

theorem lastW_self_mod {nc L : Nat} (hnc : 0 < nc) (hL : nc ≤ L) :
    lastW nc L (L % nc) = L - nc := by
  rw [lastW]
  have hq : 0 < L / nc := Nat.div_pos hL hnc
  have hdm := Nat.div_add_mod L nc
  have hmod : L % nc < nc := Nat.mod_lt _ hnc
  have h1 : L - 1 - L % nc = nc * (L / nc - 1) + (nc - 1) := by
    have hmul : nc * (L / nc) = nc * (L / nc - 1) + nc := by
      obtain ⟨t, ht⟩ : ∃ t, L / nc = t + 1 := ⟨L / nc - 1, by omega⟩
      rw [ht, Nat.mul_succ]
      simp
    omega
  rw [h1, Nat.mul_add_mod, Nat.mod_eq_of_lt (by omega)]
  omega

theorem mod_sub_ne_zero {nc L i : Nat} (hnc : 0 < nc) (hi : i < nc) (hiL : i ≤ L)
    (hne : i ≠ L % nc) : (L - i) % nc ≠ 0 := by
  intro h0
  have hdvd : nc ∣ L - i := Nat.dvd_of_mod_eq_zero h0
  have hmodeq : i ≡ L [MOD nc] := (Nat.modEq_iff_dvd' hiL).mpr hdvd
  have : i % nc = L % nc := hmodeq
  rw [Nat.mod_eq_of_lt hi] at this
  exact hne this

theorem lastW_succ_of_ne {nc L i : Nat} (hnc : 0 < nc) (hi : i < nc) (hL : nc ≤ L)
    (hne : i ≠ L % nc) : lastW nc (L + 1) i = lastW nc L i ∧ lastW nc (L + 1) i < L := by
  have hiL : i ≤ L := by omega
  have hm0 : (L - i) % nc ≠ 0 := mod_sub_ne_zero hnc hi hiL hne
  have hdm := Nat.div_add_mod (L - i) nc
  have hmlt : (L - i) % nc < nc := Nat.mod_lt _ hnc
  have h1 : L - i - 1 = nc * ((L - i) / nc) + ((L - i) % nc - 1) := by omega
  have h2 : (L - i - 1) % nc = (L - i) % nc - 1 := by
    rw [h1, Nat.mul_add_mod, Nat.mod_eq_of_lt (by omega)]
  constructor
  · rw [lastW, lastW]
    have e1 : L + 1 - 1 - i = L - i := by omega
    have e2 : L - 1 - i = L - i - 1 := by omega
    rw [e1, e2, h2]
    omega
  · rw [lastW]
    have e1 : L + 1 - 1 - i = L - i := by omega
    rw [e1]
    omega

theorem lastW_succ_self {nc L : Nat} (hnc : 0 < nc) (hL : nc ≤ L) :
    lastW nc (L + 1) (L % nc) = L := by
  rw [lastW]
  have hdm := Nat.div_add_mod L nc
  have e1 : L + 1 - 1 - L % nc = nc * (L / nc) := by omega
  rw [e1, Nat.mul_mod_right]
  omega

theorem windowState_append_of_lt {nc : Nat} {rs : List Name} {r : Name}
    (h : rs.length < nc) :
    windowState nc (rs ++ [r]) = windowState nc rs ++ [r] := by
  have hrs : windowState nc rs = rs := by rw [windowState, if_pos h]
  rw [hrs]
  by_cases h2 : (rs ++ [r]).length < nc
  · rw [windowState, if_pos h2]
  · have hlen : (rs ++ [r]).length = nc := by
      simp only [List.length_append, List.length_singleton] at h2 ⊢
      omega
    have hlw : ∀ i, i < nc → lastW nc nc i = i := by
      intro i hi
      rw [lastW, Nat.mod_eq_of_lt (by omega)]
      omega
    have hmap : (List.range nc).map
          (fun i => (rs ++ [r]).getD (lastW nc (rs ++ [r]).length i) [])
        = (List.range (rs ++ [r]).length).map (fun i => (rs ++ [r]).getD i []) := by
      rw [hlen]
      apply List.map_congr_left
      intro i hi
      rw [hlw i (List.mem_range.mp hi)]
    rw [windowState, if_neg h2, hmap, range_map_getD]

theorem windowState_read {nc : Nat} {rs : List Name} (hnc : 0 < nc)
    (h : nc ≤ rs.length) :
    (windowState nc rs)[rs.length % nc]? = rs[rs.length - nc]? := by
  have hw : windowState nc rs
      = (List.range nc).map (fun i => rs.getD (lastW nc rs.length i) []) := by
    rw [windowState, if_neg (by omega)]
  rw [hw]
  rw [List.getElem?_map, List.getElem?_range (Nat.mod_lt _ hnc), Option.map_some']
  rw [lastW_self_mod hnc h]
  rw [List.getD_eq_getElem?_getD, List.getElem?_eq_getElem (by omega)]
  rfl

theorem windowState_set {nc : Nat} {rs : List Name} {r : Name} (hnc : 0 < nc)
    (h : nc ≤ rs.length) :
    (windowState nc rs).set (rs.length % nc) r = windowState nc (rs ++ [r]) := by
  apply List.ext_getElem?
  intro i
  have hlen1 : ((windowState nc rs).set (rs.length % nc) r).length = nc := by
    rw [List.length_set, windowState_length]
    omega
  have hlen2 : (windowState nc (rs ++ [r])).length = nc := by
    rw [windowState_length]
    simp only [List.length_append, List.length_singleton]
    omega
  have hrs2 : ¬ ((rs ++ [r]).length < nc) := by
    simp only [List.length_append, List.length_singleton]
    omega
  have hw2 : windowState nc (rs ++ [r]) = (List.range nc).map
      (fun i => (rs ++ [r]).getD (lastW nc (rs ++ [r]).length i) []) := by
    rw [windowState, if_neg hrs2]
  have hw1 : windowState nc rs
      = (List.range nc).map (fun i => rs.getD (lastW nc rs.length i) []) := by
    rw [windowState, if_neg (by omega)]
  by_cases hi : i < nc
  · rw [List.getElem?_set, windowState_length, hw2]
    rw [List.getElem?_map, List.getElem?_range hi, Option.map_some']
    by_cases hieq : rs.length % nc = i
    · rw [if_pos hieq, if_pos (by omega)]
      have hlw : lastW nc (rs ++ [r]).length i = rs.length := by
        have hx := lastW_succ_self (L := rs.length) hnc h
        rw [← hieq]
        simpa using hx
      rw [hlw]
      rw [List.getD_eq_getElem?_getD, List.getElem?_concat_length]
      rfl
    · rw [if_neg hieq]
      have hne : i ≠ rs.length % nc := fun hc => hieq hc.symm
      obtain ⟨heq, hlt⟩ := lastW_succ_of_ne hnc hi h hne
      rw [hw1]
      rw [List.getElem?_map, List.getElem?_range hi, Option.map_some']
      have hsucc : (rs ++ [r]).length = rs.length + 1 := by simp
      rw [hsucc, heq]
      have hlt2 : lastW nc rs.length i < rs.length := by
        rw [← heq]
        exact hlt
      rw [List.getD_eq_getElem?_getD, List.getD_eq_getElem?_getD]
      rw [List.getElem?_append, if_pos hlt2]
  · rw [List.getElem?_eq_none (by omega), List.getElem?_eq_none (by omega)]

theorem crossHostControls_append {a b : List DistEvent} :
    crossHostControls (a ++ b) = crossHostControls a ++ crossHostControls b := by
  simp [crossHostControls, List.filterMap_append]

theorem worldsOf_append {a b : List DistEvent} :
    worldsOf (a ++ b) = worldsOf a ++ worldsOf b := by
  simp [worldsOf, List.filterMap_append]

theorem distLoop_spec {devices : List Nat} {d0 : Nat} {store : Grouped}
    {engine : Name} {nc : Nat} (hnc : 0 < nc) :
    ∀ (gs done : List Name) (ncclCtl : Option Name),
    (∀ g ∈ gs,
      ∃ tbl master bcs, List.lookup g store = some tbl ∧
        List.lookup d0 tbl = some master ∧ master ∈ tbl.map Prod.snd ∧
        broadcastParam devices store g = .ok bcs) →
    ∃ evs, distLoop devices d0 store engine nc gs
        (windowState nc (done.map (redOf store d0 engine)))
        done.length ncclCtl = .ok evs ∧
      crossHostControls evs = (List.range gs.length).map (fun k =>
        if done.length + k < nc then none
        else ((done ++ gs).map (redOf store d0 engine))[done.length + k - nc]?) ∧
      worldsOf evs = gs.map (fun g => g ++ "_cw".data) := by
  intro gs
  induction gs with
  | nil =>
    intro done ncclCtl _
    exact ⟨[], rfl, by simp [crossHostControls], by simp [worldsOf]⟩
  | cons g gs' ih =>
    intro done ncclCtl hwf
    obtain ⟨tbl, master, bcs, hlk, hm, hmem, hbc⟩ := hwf g (by simp)
    obtain ⟨rep, hrepEq⟩ : ∃ rep, (tbl.map Prod.snd).head? = some rep := by
      cases htm : tbl.map Prod.snd with
      | nil => rw [htm] at hmem; simp at hmem
      | cons a b => exact ⟨a, by simp⟩
    have hrsL : (done.map (redOf store d0 engine)).length = done.length := by simp
    have hredg : (if engine = RDMA then master ++ "_red".data ++ "cpu".data
        else master ++ "_red".data) = redOf store d0 engine g := by
      rw [redOf, masterOf, hlk]
      simp [hm]
    have hmapext : (done ++ [g]).map (redOf store d0 engine)
        = done.map (redOf store d0 engine) ++ [redOf store d0 engine g] := by
      simp
    have hlenext : (done ++ [g]).length = done.length + 1 := by simp
    obtain ⟨evs', hok', hctrl', hw'⟩ := ih (done ++ [g]) (some rep)
      (fun x hx => hwf x (by simp [hx]))
    rw [hmapext, hlenext] at hok'
    by_cases hcase : done.length < nc
    · have hc1 : (windowState nc (done.map (redOf store d0 engine))).length < nc := by
        rw [windowState_length, hrsL]
        omega
      have hwapp : windowState nc (done.map (redOf store d0 engine))
            ++ [redOf store d0 engine g]
          = windowState nc (done.map (redOf store d0 engine)
            ++ [redOf store d0 engine g]) := by
        rw [windowState_append_of_lt (by omega)]
      have hstep : distLoop devices d0 store engine nc (g :: gs')
          (windowState nc (done.map (redOf store d0 engine))) done.length ncclCtl
          = .ok (([DistEvent.constantFill (master ++ "_red".data),
                   DistEvent.ncclAllReduce (tbl.map Prod.snd) ncclCtl,
                   DistEvent.copy master (master ++ "_red".data)] ++
                  (if engine = RDMA then
                     [DistEvent.initConstantFill (master ++ "_red".data ++ "cpu".data),
                      DistEvent.initCopyGPUToCPU (replaceAll master "_grad".data [])
                        (master ++ "_red".data ++ "cpu".data),
                      DistEvent.copyGPUToCPU (master ++ "_red".data)
                        (master ++ "_red".data ++ "cpu".data)]
                   else []) ++
                  [DistEvent.createCommonWorld (g ++ "_cw".data),
                   DistEvent.crossHostAllReduce
                     (if engine = RDMA
                      then master ++ "_red".data ++ "cpu".data
                      else master ++ "_red".data) none] ++
                  [(if engine = RDMA
                    then DistEvent.copyCPUToGPU
                      (master ++ "_red".data ++ "cpu".data) master
                    else DistEvent.copy (master ++ "_red".data) master)] ++
                  bcs.map (fun c => DistEvent.broadcastCopy c.1 c.2) ++ evs')) := by
        simp only [distLoop, hlk, hm, if_pos hmem, hrepEq, hbc, if_pos hc1, hredg,
          hwapp, hok']
      refine ⟨_, hstep, ?_, ?_⟩
      · rw [crossHostControls_append, crossHostControls_append,
          crossHostControls_append, crossHostControls_append,
          crossHostControls_append]
        have h1 : crossHostControls [DistEvent.constantFill (master ++ "_red".data),
            DistEvent.ncclAllReduce (tbl.map Prod.snd) ncclCtl,
            DistEvent.copy master (master ++ "_red".data)] = [] := by
          simp [crossHostControls]
        have h2 : crossHostControls (if engine = RDMA then
              [DistEvent.initConstantFill (master ++ "_red".data ++ "cpu".data),
               DistEvent.initCopyGPUToCPU (replaceAll master "_grad".data [])
                 (master ++ "_red".data ++ "cpu".data),
               DistEvent.copyGPUToCPU (master ++ "_red".data)
                 (master ++ "_red".data ++ "cpu".data)]
            else []) = [] := by
          by_cases hR : engine = RDMA <;> simp [hR, crossHostControls]
        have h3 : crossHostControls [DistEvent.createCommonWorld (g ++ "_cw".data),
            DistEvent.crossHostAllReduce
              (if engine = RDMA
               then master ++ "_red".data ++ "cpu".data
               else master ++ "_red".data) none] = [none] := by
          simp [crossHostControls]
        have h4 : crossHostControls [(if engine = RDMA
            then DistEvent.copyCPUToGPU (master ++ "_red".data ++ "cpu".data) master
            else DistEvent.copy (master ++ "_red".data) master)] = [] := by
          by_cases hR : engine = RDMA <;> simp [hR, crossHostControls]
        have h5 : crossHostControls (bcs.map (fun c => DistEvent.broadcastCopy c.1 c.2))
            = [] := by
          induction bcs with
          | nil => simp [crossHostControls]
          | cons c cs ihc => simpa [crossHostControls] using ihc
        rw [h1, h2, h3, h4, h5, hctrl']
        simp only [List.nil_append, List.append_nil, List.singleton_append]
        rw [List.length_cons, List.range_succ_eq_map, List.map_cons, List.map_map]
        congr 1
        · rw [if_pos (by omega)]
        · apply List.map_congr_left
          intro k hk
          simp only [Function.comp_apply, List.length_append, List.length_cons,
            List.length_nil, Nat.succ_eq_add_one]
          have e1 : done.length + (0 + 1) + k = done.length + (k + 1) := by omega
          have e2 : done ++ [g] ++ gs' = done ++ g :: gs' := by simp
          rw [e1, e2]
      · rw [worldsOf_append, worldsOf_append, worldsOf_append, worldsOf_append,
          worldsOf_append]
        have h1 : worldsOf [DistEvent.constantFill (master ++ "_red".data),
            DistEvent.ncclAllReduce (tbl.map Prod.snd) ncclCtl,
            DistEvent.copy master (master ++ "_red".data)] = [] := by
          simp [worldsOf]
        have h2 : worldsOf (if engine = RDMA then
              [DistEvent.initConstantFill (master ++ "_red".data ++ "cpu".data),
               DistEvent.initCopyGPUToCPU (replaceAll master "_grad".data [])
                 (master ++ "_red".data ++ "cpu".data),
               DistEvent.copyGPUToCPU (master ++ "_red".data)
                 (master ++ "_red".data ++ "cpu".data)]
            else []) = [] := by
          by_cases hR : engine = RDMA <;> simp [hR, worldsOf]
        have h3 : worldsOf [DistEvent.createCommonWorld (g ++ "_cw".data),
            DistEvent.crossHostAllReduce
              (if engine = RDMA
               then master ++ "_red".data ++ "cpu".data
               else master ++ "_red".data) none] = [g ++ "_cw".data] := by
          simp [worldsOf]
        have h4 : worldsOf [(if engine = RDMA
            then DistEvent.copyCPUToGPU (master ++ "_red".data ++ "cpu".data) master
            else DistEvent.copy (master ++ "_red".data) master)] = [] := by
          by_cases hR : engine = RDMA <;> simp [hR, worldsOf]
        have h5 : worldsOf (bcs.map (fun c => DistEvent.broadcastCopy c.1 c.2)) = [] := by
          induction bcs with
          | nil => simp [worldsOf]
          | cons c cs ihc => simpa [worldsOf] using ihc
        rw [h1, h2, h3, h4, h5, hw']
        simp
    · have hc1 : ¬ ((windowState nc (done.map (redOf store d0 engine))).length < nc) := by
        rw [windowState_length, hrsL]
        omega
      have hnc2 : nc ≤ (done.map (redOf store d0 engine)).length := by omega
      obtain ⟨cv, hcv⟩ : ∃ cv, (windowState nc (done.map (redOf store d0 engine)))[done.length % nc]?
          = some cv := by
        have hr := @windowState_read nc (done.map (redOf store d0 engine)) hnc (by omega)
        rw [hrsL] at hr
        rw [hr]
        have : done.length - nc < (done.map (redOf store d0 engine)).length := by omega
        exact ⟨_, List.getElem?_eq_getElem this⟩
      have hwset : (windowState nc (done.map (redOf store d0 engine))).set
            (done.length % nc) (redOf store d0 engine g)
          = windowState nc (done.map (redOf store d0 engine)
            ++ [redOf store d0 engine g]) := by
        have := @windowState_set nc (done.map (redOf store d0 engine))
          (redOf store d0 engine g) hnc (by omega)
        rw [hrsL] at this
        exact this
      have hstep : distLoop devices d0 store engine nc (g :: gs')
          (windowState nc (done.map (redOf store d0 engine))) done.length ncclCtl
          = .ok (([DistEvent.constantFill (master ++ "_red".data),
                   DistEvent.ncclAllReduce (tbl.map Prod.snd) ncclCtl,
                   DistEvent.copy master (master ++ "_red".data)] ++
                  (if engine = RDMA then
                     [DistEvent.initConstantFill (master ++ "_red".data ++ "cpu".data),
                      DistEvent.initCopyGPUToCPU (replaceAll master "_grad".data [])
                        (master ++ "_red".data ++ "cpu".data),
                      DistEvent.copyGPUToCPU (master ++ "_red".data)
                        (master ++ "_red".data ++ "cpu".data)]
                   else []) ++
                  [DistEvent.createCommonWorld (g ++ "_cw".data),
                   DistEvent.crossHostAllReduce
                     (if engine = RDMA
                      then master ++ "_red".data ++ "cpu".data
                      else master ++ "_red".data) (some cv)] ++
                  [(if engine = RDMA
                    then DistEvent.copyCPUToGPU
                      (master ++ "_red".data ++ "cpu".data) master
                    else DistEvent.copy (master ++ "_red".data) master)] ++
                  bcs.map (fun c => DistEvent.broadcastCopy c.1 c.2) ++ evs')) := by
        simp only [distLoop, hlk, hm, if_pos hmem, hrepEq, hbc, if_neg hc1, hcv, hredg,
          hwset, hok']
      refine ⟨_, hstep, ?_, ?_⟩
      · rw [crossHostControls_append, crossHostControls_append,
          crossHostControls_append, crossHostControls_append,
          crossHostControls_append]
        have h1 : crossHostControls [DistEvent.constantFill (master ++ "_red".data),
            DistEvent.ncclAllReduce (tbl.map Prod.snd) ncclCtl,
            DistEvent.copy master (master ++ "_red".data)] = [] := by
          simp [crossHostControls]
        have h2 : crossHostControls (if engine = RDMA then
              [DistEvent.initConstantFill (master ++ "_red".data ++ "cpu".data),
               DistEvent.initCopyGPUToCPU (replaceAll master "_grad".data [])
                 (master ++ "_red".data ++ "cpu".data),
               DistEvent.copyGPUToCPU (master ++ "_red".data)
                 (master ++ "_red".data ++ "cpu".data)]
            else []) = [] := by
          by_cases hR : engine = RDMA <;> simp [hR, crossHostControls]
        have h3 : crossHostControls [DistEvent.createCommonWorld (g ++ "_cw".data),
            DistEvent.crossHostAllReduce
              (if engine = RDMA
               then master ++ "_red".data ++ "cpu".data
               else master ++ "_red".data) (some cv)] = [some cv] := by
          simp [crossHostControls]
        have h4 : crossHostControls [(if engine = RDMA
            then DistEvent.copyCPUToGPU (master ++ "_red".data ++ "cpu".data) master
            else DistEvent.copy (master ++ "_red".data) master)] = [] := by
          by_cases hR : engine = RDMA <;> simp [hR, crossHostControls]
        have h5 : crossHostControls (bcs.map (fun c => DistEvent.broadcastCopy c.1 c.2))
            = [] := by
          induction bcs with
          | nil => simp [crossHostControls]
          | cons c cs ihc => simpa [crossHostControls] using ihc
        rw [h1, h2, h3, h4, h5, hctrl']
        simp only [List.nil_append, List.append_nil, List.singleton_append]
        rw [List.length_cons, List.range_succ_eq_map, List.map_cons, List.map_map]
        congr 1
        · rw [if_neg (by omega)]
          have hv := @windowState_read nc (done.map (redOf store d0 engine)) hnc (by omega)
          rw [hrsL] at hv
          rw [hcv] at hv
          have e3 : ((done ++ g :: gs').map (redOf store d0 engine))[done.length + 0 - nc]?
              = (done.map (redOf store d0 engine))[done.length - nc]? := by
            rw [List.map_append, List.getElem?_append]
            rw [if_pos (by rw [hrsL]; omega)]
            congr 1 <;> omega
          rw [e3, ← hv]
        · apply List.map_congr_left
          intro k hk
          simp only [Function.comp_apply, List.length_append, List.length_cons,
            List.length_nil, Nat.succ_eq_add_one]
          have e1 : done.length + (0 + 1) + k = done.length + (k + 1) := by omega
          have e2 : done ++ [g] ++ gs' = done ++ g :: gs' := by simp
          rw [e1, e2]
      · rw [worldsOf_append, worldsOf_append, worldsOf_append, worldsOf_append,
          worldsOf_append]
        have h1 : worldsOf [DistEvent.constantFill (master ++ "_red".data),
            DistEvent.ncclAllReduce (tbl.map Prod.snd) ncclCtl,
            DistEvent.copy master (master ++ "_red".data)] = [] := by
          simp [worldsOf]
        have h2 : worldsOf (if engine = RDMA then
              [DistEvent.initConstantFill (master ++ "_red".data ++ "cpu".data),
               DistEvent.initCopyGPUToCPU (replaceAll master "_grad".data [])
                 (master ++ "_red".data ++ "cpu".data),
               DistEvent.copyGPUToCPU (master ++ "_red".data)
                 (master ++ "_red".data ++ "cpu".data)]
            else []) = [] := by
          by_cases hR : engine = RDMA <;> simp [hR, worldsOf]
        have h3 : worldsOf [DistEvent.createCommonWorld (g ++ "_cw".data),
            DistEvent.crossHostAllReduce
              (if engine = RDMA
               then master ++ "_red".data ++ "cpu".data
               else master ++ "_red".data) (some cv)] = [g ++ "_cw".data] := by
          simp [worldsOf]
        have h4 : worldsOf [(if engine = RDMA
            then DistEvent.copyCPUToGPU (master ++ "_red".data ++ "cpu".data) master
            else DistEvent.copy (master ++ "_red".data) master)] = [] := by
          by_cases hR : engine = RDMA <;> simp [hR, worldsOf]
        have h5 : worldsOf (bcs.map (fun c => DistEvent.broadcastCopy c.1 c.2)) = [] := by
          induction bcs with
          | nil => simp [worldsOf]
          | cons c cs ihc => simpa [worldsOf] using ihc
        rw [h1, h2, h3, h4, h5, hw']
        simp

/-- C1 (amended): the cross-host all-reduce control dependencies come from a
sliding window of prior reduced tensors of size `min(4, num_workers - 1)`
(the net's worker count, not the shard count): the first
`min(4, num_workers - 1)` all-reduces carry no control input and every later
one carries the reduced tensor issued `min(4, num_workers - 1)` steps
earlier.  Under the worker count `Parallelize_GPU` configures for a
distributed run (`4 * |devices| + 8`), the window size is always 4. -/
theorem c1_window_from_num_workers (devices : List Nat) (store : Grouped)
    (rendezvous : Rendezvous) (numWorkers : Nat) (gradNames : List Name) (d0 : Nat)
    (hnw : 2 ≤ numWorkers) (hd0 : devices.head? = some d0)
    (hwf : ∀ g ∈ getReverseOrderedGrads gradNames,
      ∃ tbl master bcs, List.lookup g store = some tbl ∧
        List.lookup d0 tbl = some master ∧ master ∈ tbl.map Prod.snd ∧
        broadcastParam devices store g = .ok bcs) :
    ∃ evs, allReduceGradientsDistributed devices store rendezvous numWorkers gradNames
        = .ok evs ∧
      crossHostControls evs = (List.range gradNames.length).map (fun k =>
        if k < min 4 (numWorkers - 1) then none
        else ((getReverseOrderedGrads gradNames).map
          (redOf store d0 rendezvous.engine))[k - min 4 (numWorkers - 1)]?) ∧
      min 4 (parallelizeNumWorkers devices.length true - 1) = 4 := by
  have hnc : 0 < min 4 (numWorkers - 1) := by omega
  obtain ⟨evs, hok, hctrl, hw⟩ :=
    distLoop_spec hnc (getReverseOrderedGrads gradNames) [] none hwf
  have hwin : windowState (min 4 (numWorkers - 1))
      (([] : List Name).map (redOf store d0 rendezvous.engine)) = [] := by
    rw [List.map_nil, windowState, if_pos (by simpa using hnc)]
  rw [hwin] at hok
  refine ⟨evs, ?_, ?_, ?_⟩
  · rw [allReduceGradientsDistributed, if_neg (by omega), hd0]
    exact hok
  · rw [hctrl]
    simp only [List.nil_append, List.length_nil, Nat.zero_add]
    have hlen : (getReverseOrderedGrads gradNames).length = gradNames.length := by
      simp [getReverseOrderedGrads]
    rw [hlen]
  · rw [parallelizeNumWorkers]
    simp only [if_pos]
    omega

/-- Closed witness for `c1_window_from_num_workers` at one device, two
gradients, twelve workers. -/
theorem c1_window_from_num_workers_witness :
    (2 ≤ 12) ∧ (([0] : List Nat).head? = some 0) ∧
    ∃ evs, allReduceGradientsDistributed [0] (blockGrouped [0] [['a'], ['b']])
        ⟨"kv".data, 2, 0, "GLOO".data⟩ 12 [['a'], ['b']] = .ok evs ∧
      crossHostControls evs = (List.range ([['a'], ['b']] : List Name).length).map
        (fun k => if k < min 4 (12 - 1) then none
          else ((getReverseOrderedGrads [['a'], ['b']]).map
            (redOf (blockGrouped [0] [['a'], ['b']]) 0 "GLOO".data))[k - min 4 (12 - 1)]?) ∧
      min 4 (parallelizeNumWorkers ([0] : List Nat).length true - 1) = 4 := by
  refine ⟨by decide, by decide, ?_⟩
  apply c1_window_from_num_workers [0] (blockGrouped [0] [['a'], ['b']])
    ⟨"kv".data, 2, 0, "GLOO".data⟩ 12 [['a'], ['b']] 0 (by decide) (by decide)
  intro g hg
  have hcases : g = ['b'] ∨ g = ['a'] := by
    simpa [getReverseOrderedGrads] using hg
  rcases hcases with rfl | rfl
  · exact ⟨[(0, gpuTag 0 ++ ['b'])], gpuTag 0 ++ ['b'], [],
      by decide, by decide, by decide, by decide⟩
  · exact ⟨[(0, gpuTag 0 ++ ['a'])], gpuTag 0 ++ ['a'], [],
      by decide, by decide, by decide, by decide⟩

/-- C1 counterexample: with shard_count = 2 the claim predicts a window of
`min(4, 2 - 1) = 1`, so the second cross-host all-reduce should carry the
first reduced tensor as its control input; but the code sizes the window by
`min(4, num_workers - 1)` with `num_workers = 4 * 1 + 8 = 12` for one
device, so both of two all-reduces are issued with no control input. -/
theorem c1_counterexample :
    min 4 (2 - 1) = 1 ∧
    (allReduceGradientsDistributed [0] (blockGrouped [0] [['a'], ['b']])
        ⟨"kv".data, 2, 0, "GLOO".data⟩ (parallelizeNumWorkers 1 true)
        [['a'], ['b']]).map crossHostControls = .ok [none, none] ∧
    ([none, none] : List (Option Name))
      ≠ [none, some (redOf (blockGrouped [0] [['a'], ['b']]) 0 "GLOO".data ['b'])] := by
  refine ⟨by decide, by decide, by decide⟩

theorem filter_update_deviceLoop {devices : List Nat} :
    (deviceLoopEvents devices).filter isUpdate = [] := by
  induction devices with
  | nil => rfl
  | cons d ds ih =>
    simp only [deviceLoopEvents, List.flatMap_cons] at *
    simp [List.filter_append, ih, List.filter_cons, isUpdate]

theorem filter_callback_deviceLoop {devices : List Nat} :
    (deviceLoopEvents devices).filter isCallback
      = deviceLoopEvents devices := by
  induction devices with
  | nil => rfl
  | cons d ds ih =>
    simp only [deviceLoopEvents, List.flatMap_cons] at *
    simp [List.filter_append, ih, List.filter_cons, isCallback]

/-- C7: when a parameter-update builder is supplied, the learning-rate scale
passed to every per-device update invocation is exactly
`1 / (|devices| * shard_count)` (with `shard_count = 1` when no rendezvous
is supplied, and the rendezvous's `num_shards` otherwise), and the update
builder is invoked exactly once per device, all strictly after the gradient
all-reduce phase: the trace splits as
`pre ++ [allReduce] ++ (one callUpdate per device) ++ post` with no update
invocation anywhere else. -/
theorem c7_learning_rate_scale (devices : List Nat)
    (rendezvous : Option Rendezvous) (bc om : Bool) (netType : Name)
    (hD : devices ≠ []) (hs : shardsOf rendezvous ≠ 0) :
    (parallelizeGPUTrace [] devices rendezvous true bc om netType).2 = none ∧
    ∃ pre post,
      (parallelizeGPUTrace [] devices rendezvous true bc om netType).1
        = pre ++ [.allReducePhase]
          ++ devices.map (fun d => BuildEvent.callUpdate d
              (1 / ((devices.length : ℚ) * (shardsOf rendezvous : ℚ))))
          ++ post ∧
      pre.filter isUpdate = [] ∧ post.filter isUpdate = [] := by
  have hmul : ¬ (devices.length * shardsOf rendezvous = 0) := by
    intro h
    rcases Nat.mul_eq_zero.mp h with h0 | h0
    · exact hD (List.length_eq_zero.mp h0)
    · exact hs h0
  simp only [parallelizeGPUTrace, if_pos rfl, if_pos, if_neg hmul]
  refine ⟨trivial, ?_⟩
  refine ⟨[.configure (devices.length * 4 + (if rendezvous.isSome then 8 else 0))
      netType] ++ deviceLoopEvents devices
      ++ [.groupParamsPhase, .groupComputedPhase, .addGradients,
          .groupGradientsPhase]
      ++ (if bc then [.broadcastComputedPhase] else []),
    [.analyzePhase, .firstIterArg]
      ++ (if rendezvous.isSome then [.distParamSync] else [])
      ++ [.syncParamsPhase]
      ++ (if om then [.optimizeMemoryPhase] else []), ?_, ?_, ?_⟩
  · simp only [lrScaleOf, List.append_assoc, List.cons_append, List.nil_append]
  · simp only [List.filter_append, filter_update_deviceLoop]
    cases bc <;> simp [isUpdate, List.filter_cons]
  · cases om <;> cases rendezvous <;> simp [isUpdate, List.filter_cons,
      List.filter_append]

/-- Closed witness for `c7_learning_rate_scale` on two devices without a
rendezvous. -/
theorem c7_learning_rate_scale_witness :
    (([0, 1] : List Nat) ≠ []) ∧ shardsOf none ≠ 0 ∧
    ((parallelizeGPUTrace [] [0, 1] none true true false "dag".data).2 = none ∧
    ∃ pre post,
      (parallelizeGPUTrace [] [0, 1] none true true false "dag".data).1
        = pre ++ [.allReducePhase]
          ++ ([0, 1] : List Nat).map (fun d => BuildEvent.callUpdate d
              (1 / ((([0, 1] : List Nat).length : ℚ) * (shardsOf none : ℚ))))
          ++ post ∧
      pre.filter isUpdate = [] ∧ post.filter isUpdate = []) :=
  ⟨by decide, by decide,
    c7_learning_rate_scale [0, 1] none true false "dag".data
      (by decide) (by decide)⟩

/-- C10: when the model's parameter list is non-empty at entry, the
replication entry point fails with the entry assertion before calling any
of the caller-supplied builders: the trace carries the `paramsNotEmpty`
error and contains no input, forward or update invocation. -/
theorem c10_requires_empty_params (params0 : List Name) (devices : List Nat)
    (rendezvous : Option Rendezvous) (hasUpdate bc om : Bool) (netType : Name)
    (h : params0 ≠ []) :
    (parallelizeGPUTrace params0 devices rendezvous hasUpdate bc om
      netType).2 = some .paramsNotEmpty ∧
    (parallelizeGPUTrace params0 devices rendezvous hasUpdate bc om
      netType).1.filter isCallback = [] := by
  simp only [parallelizeGPUTrace, if_neg h]
  exact ⟨trivial, rfl⟩

/-- Closed witness for `c10_requires_empty_params` with one pre-existing
parameter. -/
theorem c10_requires_empty_params_witness :
    ((([['a']] : List Name) ≠ []) ∧
    (parallelizeGPUTrace [['a']] [0, 1] none true true false
      "dag".data).2 = some .paramsNotEmpty ∧
    (parallelizeGPUTrace [['a']] [0, 1] none true true false
      "dag".data).1.filter isCallback = []) :=
  ⟨by decide,
    c10_requires_empty_params [['a']] [0, 1] none true true false
      "dag".data (by decide)⟩

theorem lookup_append_of_some {n : Name} {l₁ l₂ : Grouped} {v : DeviceTable}
    (h : List.lookup n l₁ = some v) : List.lookup n (l₁ ++ l₂) = some v := by
  induction l₁ with
  | nil => simp [List.lookup] at h
  | cons kv l ih =>
    rw [List.cons_append]
    rw [List.lookup] at h ⊢
    cases hk : n == kv.1
    · simp only [hk] at h ⊢; exact ih h
    · simp only [hk] at h ⊢; exact h

theorem lookup_append_of_none {n : Name} {l₁ l₂ : Grouped}
    (h : List.lookup n l₁ = none) :
    List.lookup n (l₁ ++ l₂) = List.lookup n l₂ := by
  induction l₁ with
  | nil => rfl
  | cons kv l ih =>
    rw [List.cons_append]
    rw [List.lookup] at h ⊢
    cases hk : n == kv.1
    · simp only [hk] at h ⊢; exact ih h
    · simp only [hk] at h; exact absurd h (by simp)

theorem lookup_singleton_eq {m : Name} {t : DeviceTable} :
    List.lookup m [(m, t)] = some t := by
  simp [List.lookup]

theorem lookup_singleton_ne {n m : Name} {t : DeviceTable} (h : n ≠ m) :
    List.lookup n [(m, t)] = none := by
  rw [List.lookup, show (n == m) = false from beq_eq_false_iff_ne.mpr h]
  rfl

theorem autoRegister_lookup_present {devices : List Nat} :
    ∀ (ns : List Name) (store : Grouped) (n : Name) (v : DeviceTable),
      List.lookup n store = some v →
      List.lookup n (autoRegister devices store ns) = some v := by
  intro ns
  induction ns with
  | nil => intro store n v h; exact h
  | cons m ms ih =>
    intro store n v h
    rw [autoRegister]
    by_cases hm : (List.lookup m store).isSome
    · rw [if_pos hm]; exact ih store n v h
    · rw [if_neg hm]
      exact ih _ n v (lookup_append_of_some h)

theorem autoRegister_lookup_absent {devices : List Nat} :
    ∀ (ns : List Name) (store : Grouped) (n : Name),
      n ∈ ns → List.lookup n store = none →
      List.lookup n (autoRegister devices store ns)
        = some (synthesizedTable devices n) := by
  intro ns
  induction ns with
  | nil => intro _ _ h; exact absurd h (List.not_mem_nil _)
  | cons m ms ih =>
    intro store n hmem hnone
    rw [autoRegister]
    by_cases hmn : m = n
    · subst hmn
      rw [if_neg (by rw [hnone]; simp)]
      have hfound : List.lookup m (store ++ [(m, synthesizedTable devices m)])
          = some (synthesizedTable devices m) := by
        rw [lookup_append_of_none hnone, lookup_singleton_eq]
      exact autoRegister_lookup_present ms _ m _ hfound
    · have hmem' : n ∈ ms := by
        rcases List.mem_cons.mp hmem with h | h
        · exact absurd h.symm hmn
        · exact h
      by_cases hm : (List.lookup m store).isSome
      · rw [if_pos hm]; exact ih store n hmem' hnone
      · rw [if_neg hm]
        refine ih _ n hmem' ?_
        rw [lookup_append_of_none hnone,
          lookup_singleton_ne (fun h => hmn h.symm)]

theorem finalizeCalls_built {devices : List Nat}
    {rendezvous : Option Rendezvous} :
    ∀ (calls : List (List Name × Bool)) (st : CkptState),
      st.checkpointNetBuilt = true →
      finalizeCalls devices rendezvous st calls
        = (st, calls.map (fun _ => [CkptEvent.runNet])) := by
  intro calls
  induction calls with
  | nil => intro st _; rfl
  | cons c cs ih =>
    intro st hb
    obtain ⟨blobs, si⟩ := c
    rw [finalizeCalls]
    rw [show finalizeAfterCheckpoint devices rendezvous st blobs si
        = (st, [.runNet]) from by rw [finalizeAfterCheckpoint, if_pos hb]]
    rw [ih st hb]
    rfl

theorem pSyncLoop_spec {store : Grouped} {d0 : Nat} :
    ∀ (ps : List Name),
      (∀ p ∈ ps, ∃ tbl param, List.lookup p store = some tbl ∧
        List.lookup d0 tbl = some param) →
      ∃ inits nets, pSyncLoop store d0 ps = .ok (inits, nets) ∧
        psWorlds inits = ps.map (fun p => p ++ "_cw".data) := by
  intro ps
  induction ps with
  | nil => intro _; exact ⟨[], [], rfl, rfl⟩
  | cons p ps ih =>
    intro hwf
    obtain ⟨tbl, param, htbl, hparam⟩ := hwf p (List.mem_cons_self p ps)
    obtain ⟨inits, nets, hok, hw⟩ := ih (fun q hq => hwf q (List.mem_cons_of_mem p hq))
    refine ⟨PsEvent.createWorld (p ++ "_cw".data) :: inits,
      PsEvent.gpuToCPU param (param ++ "cpu".data)
        :: PsEvent.broadcastBlob (param ++ "cpu".data)
        :: PsEvent.cpuToGPU (param ++ "cpu".data) param :: nets, ?_, ?_⟩
    · rw [pSyncLoop]
      simp only [htbl, hparam, hok]
    · rw [List.map_cons, ← hw]
      rfl

theorem insertName_perm (x : Name) :
    ∀ (l : List Name), (insertName x l).Perm (x :: l) := by
  intro l
  induction l with
  | nil => exact List.Perm.refl _
  | cons y ys ih =>
    rw [insertName]
    by_cases h : nameLt y x
    · rw [if_pos h]
      exact (List.Perm.cons y ih).trans (List.Perm.swap x y ys)
    · rw [if_neg h]

theorem sortNames_perm : ∀ (l : List Name), (sortNames l).Perm l := by
  intro l
  induction l with
  | nil => exact List.Perm.refl _
  | cons x xs ih =>
    exact (insertName_perm x (sortNames xs)).trans (List.Perm.cons x ih)

theorem append_cw_inj : Function.Injective (fun p : Name => p ++ "_cw".data) := by
  intro a b h
  exact List.append_cancel_right h

theorem count_insertName (p x : Name) : ∀ (l : List Name),
    (insertName x l).count p = (x :: l).count p := by
  intro l
  induction l with
  | nil => rfl
  | cons y ys ih =>
    rw [insertName]
    by_cases h : nameLt y x
    · rw [if_pos h]
      simp only [List.count_cons, ih]
      omega
    · rw [if_neg h]

theorem count_sortNames (p : Name) : ∀ (l : List Name),
    (sortNames l).count p = l.count p := by
  intro l
  induction l with
  | nil => rfl
  | cons x xs ih =>
    rw [sortNames, count_insertName, List.count_cons, List.count_cons, ih]

theorem count_eq_zero_not_mem {p : Name} {l : List Name} (h : p ∉ l) :
    l.count p = 0 := by
  induction l with
  | nil => rfl
  | cons y ys ih =>
    rw [List.count_cons]
    have h1 : p ∉ ys := fun hh => h (List.mem_cons_of_mem y hh)
    have h2 : p ≠ y := fun hh => h (hh ▸ List.mem_cons_self y ys)
    rw [ih h1]
    simp [h2, Ne.symm h2]

theorem count_eq_one_nodup {p : Name} : ∀ {l : List Name},
    l.Nodup → p ∈ l → l.count p = 1 := by
  intro l
  induction l with
  | nil => intro _ h; exact absurd h (List.not_mem_nil p)
  | cons y ys ih =>
    intro hnd hmem
    rw [List.count_cons]
    rcases List.mem_cons.mp hmem with rfl | hm
    · rw [count_eq_zero_not_mem (List.nodup_cons.mp hnd).1]
      simp
    · rw [ih (List.nodup_cons.mp hnd).2 hm]
      have hne : p ≠ y := fun hh => (List.nodup_cons.mp hnd).1 (hh ▸ hm)
      simp [hne, Ne.symm hne]

theorem count_map_cw (p : Name) : ∀ (l : List Name),
    (l.map (fun q => q ++ "_cw".data)).count (p ++ "_cw".data) = l.count p := by
  intro l
  induction l with
  | nil => rfl
  | cons a as ih =>
    by_cases h : a = p
    · subst h
      simp [List.count_cons, ih]
    · simp [List.count_cons, ih, h, List.append_left_inj]

theorem not_mem_copyIter_tail {e : CkptEvent} {s : Nat} {l : List Nat}
    (he : ∀ a b, e ≠ CkptEvent.copyIter a b) :
    e ∉ (l.map (fun d => CkptEvent.copyIter s d)).tail := by
  intro h
  obtain ⟨d, _, hd⟩ := List.mem_map.mp (List.mem_of_mem_tail h)
  exact he s d hd.symm

/-- C8: across a sequence of `FinalizeAfterCheckpoint` calls on a model
whose checkpoint net is not yet built, the sync net is built exactly once
(on the first call, and never on later calls), every call including the
first runs the net exactly once, and every blob name absent from the
grouped store at the first call is auto-registered with the synthesized
per-device handles `gpu_{d}/{name}` before the build. -/
theorem c8_checkpoint_build_once (devices : List Nat)
    (rendezvous : Option Rendezvous) (store0 : Grouped)
    (blobs : List Name) (si : Bool) (rest : List (List Name × Bool)) :
    ((finalizeCalls devices rendezvous ⟨store0, false⟩
        ((blobs, si) :: rest)).2.map
      (fun evs => evs.count CkptEvent.buildNet))
      = 1 :: rest.map (fun _ => 0) ∧
    (∀ evs ∈ (finalizeCalls devices rendezvous ⟨store0, false⟩
        ((blobs, si) :: rest)).2, evs.count CkptEvent.runNet = 1) ∧
    (∀ n ∈ blobs.map stripParamName, List.lookup n store0 = none →
      List.lookup n (finalizeAfterCheckpoint devices rendezvous
          ⟨store0, false⟩ blobs si).1.store
        = some (synthesizedTable devices n)) := by
  have hr : (finalizeAfterCheckpoint devices rendezvous ⟨store0, false⟩
      blobs si).1.checkpointNetBuilt = true := rfl
  have hcalls : (finalizeCalls devices rendezvous ⟨store0, false⟩
      ((blobs, si) :: rest)).2
      = (finalizeAfterCheckpoint devices rendezvous ⟨store0, false⟩
          blobs si).2
        :: rest.map (fun _ => [CkptEvent.runNet]) := by
    simp only [finalizeCalls]
    rw [finalizeCalls_built rest _ hr]
  have hev : (finalizeAfterCheckpoint devices rendezvous ⟨store0, false⟩
      blobs si).2
      = [CkptEvent.buildNet]
        ++ (if rendezvous.isSome
            then [CkptEvent.distSyncPhase (blobs.map stripParamName)]
            else [])
        ++ [CkptEvent.syncParamsPhase (blobs.map stripParamName)]
        ++ (if si then (devices.drop 1).map
              (fun d => CkptEvent.copyIter (devices.headD 0) d)
            else [])
        ++ [CkptEvent.createNet, CkptEvent.runNet] := rfl
  refine ⟨?_, ?_, ?_⟩
  · rw [hcalls, List.map_cons, hev, List.map_map]
    congr 1
    · cases rendezvous <;> cases si <;>
        simp [List.count_append, List.count_cons, List.count_eq_zero,
          List.mem_map] <;>
        exact not_mem_copyIter_tail (fun a b h => CkptEvent.noConfusion h)
  · rw [hcalls]
    intro evs hevs
    rcases List.mem_cons.mp hevs with h | h
    · rw [h, hev]
      cases rendezvous <;> cases si <;>
        simp [List.count_append, List.count_cons, List.count_eq_zero,
          List.mem_map] <;>
        exact not_mem_copyIter_tail (fun a b h => CkptEvent.noConfusion h)
    · obtain ⟨c, _, h2⟩ := List.mem_map.mp h
      rw [← h2]
      decide
  · intro n hn hnone
    have hstore : (finalizeAfterCheckpoint devices rendezvous ⟨store0, false⟩
        blobs si).1.store
        = autoRegister devices store0 (blobs.map stripParamName) := rfl
    rw [hstore]
    exact autoRegister_lookup_absent _ store0 n hn hnone

/-- Closed witness for `c8_checkpoint_build_once`: two calls, one device,
one momentum-style blob absent from the store. -/
theorem c8_checkpoint_build_once_witness :
    ((finalizeCalls [0] none ⟨[], false⟩
        (([gpuTag 0 ++ ['m']], true) :: [([], false)])).2.map
      (fun evs => evs.count CkptEvent.buildNet))
      = 1 :: ([([], false)] : List (List Name × Bool)).map (fun _ => 0) ∧
    (∀ evs ∈ (finalizeCalls [0] none ⟨[], false⟩
        (([gpuTag 0 ++ ['m']], true) :: [([], false)])).2,
      evs.count CkptEvent.runNet = 1) ∧
    (∀ n ∈ ([gpuTag 0 ++ ['m']] : List Name).map stripParamName,
      List.lookup n ([] : Grouped) = none →
      List.lookup n (finalizeAfterCheckpoint [0] none ⟨[], false⟩
          [gpuTag 0 ++ ['m']] true).1.store
        = some (synthesizedTable [0] n)) :=
  c8_checkpoint_build_once [0] none [] [gpuTag 0 ++ ['m']] true [([], false)]

/-- C9 counterexample: nothing memoizes CommonWorld creation on the model.
`FinalizeAfterCheckpoint` hands the stripped blob names to
`_AddDistributedParameterSync` without deduplication, and the loop issues
one `CreateCommonWorld` per list entry: for blobs `gpu_0/w` and `gpu_1/w`
(both stripping to `w`), one call creates the CommonWorld named `w_cw`
twice instead of reusing an already-created handle. -/
theorem c9_counterexample :
    (([gpuTag 0 ++ ['w'], gpuTag 1 ++ ['w']] : List Name).map stripParamName
      = [['w'], ['w']]) ∧
    (addDistributedParameterSync [0, 1] (blockGrouped [0, 1] [['w']])
        [['w'], ['w']]).map
      (fun r => (psWorlds r.1).count (['w'] ++ "_cw".data)) = .ok 2 :=
  ⟨by decide, by decide⟩

/-- C9 (amended): CommonWorld creation is once per key per construction
pass, not memoized across passes: one `_AddDistributedParameterSync` pass
over distinct names emits on the init net exactly `iter_cw` followed by one
`{name}_cw` per sorted name — one creation per key — but nothing is cached
on the model, so a second pass over the same names emits a second creation
for every key (two passes carry two creations of `{name}_cw` per name). -/
theorem c9_world_creation_per_pass (devices : List Nat) (store : Grouped)
    (uniq : List Name) (d0 : Nat) (hd : devices.head? = some d0)
    (hnd : uniq.Nodup)
    (hwf : ∀ p ∈ uniq, ∃ tbl param, List.lookup p store = some tbl ∧
      List.lookup d0 tbl = some param) :
    ∃ inits nets,
      addDistributedParameterSync devices store uniq = .ok (inits, nets) ∧
      psWorlds inits = "iter_cw".data
        :: (sortNames uniq).map (fun p => p ++ "_cw".data) ∧
      ∀ p ∈ uniq, p ≠ "iter".data →
        (psWorlds inits).count (p ++ "_cw".data) = 1 ∧
        (psWorlds inits ++ psWorlds inits).count (p ++ "_cw".data) = 2 := by
  obtain ⟨inits, nets, hok, hw⟩ := pSyncLoop_spec (sortNames uniq)
    (fun p hp => hwf p ((sortNames_perm uniq).mem_iff.mp hp))
  refine ⟨PsEvent.createWorld "iter_cw".data :: inits,
    PsEvent.broadcastBlob (gpuTag d0 ++ "ITER".data) :: nets, ?_, ?_, ?_⟩
  · simp only [addDistributedParameterSync, hd, hok]
  · rw [show psWorlds (PsEvent.createWorld "iter_cw".data :: inits)
      = "iter_cw".data :: psWorlds inits from rfl, hw]
  · intro p hp hpi
    have hiter : ¬ (p ++ "_cw".data = "iter_cw".data) := by
      intro h
      rw [show ("iter_cw".data : Name) = "iter".data ++ "_cw".data from rfl]
        at h
      exact hpi (List.append_cancel_right h)
    have hcount1 : (psWorlds (PsEvent.createWorld "iter_cw".data
        :: inits)).count (p ++ "_cw".data) = 1 := by
      rw [show psWorlds (PsEvent.createWorld "iter_cw".data :: inits)
        = "iter_cw".data :: psWorlds inits from rfl, hw, List.count_cons]
      rw [show (("iter_cw".data == p ++ "_cw".data)) = false from
        beq_eq_false_iff_ne.mpr (fun h => hiter h.symm)]
      rw [count_map_cw p (sortNames uniq), count_sortNames,
        count_eq_one_nodup hnd hp]
      rfl
    refine ⟨hcount1, ?_⟩
    rw [List.count_append, hcount1]

/-- Closed witness for `c9_world_creation_per_pass` at one device and one
parameter. -/
theorem c9_world_creation_per_pass_witness :
    (([0] : List Nat).head? = some 0) ∧ ([['w']] : List Name).Nodup ∧
    (∃ inits nets,
      addDistributedParameterSync [0] (blockGrouped [0] [['w']]) [['w']]
        = .ok (inits, nets) ∧
      psWorlds inits = "iter_cw".data
        :: (sortNames [['w']]).map (fun p => p ++ "_cw".data) ∧
      ∀ p ∈ ([['w']] : List Name), p ≠ "iter".data →
        (psWorlds inits).count (p ++ "_cw".data) = 1 ∧
        (psWorlds inits ++ psWorlds inits).count (p ++ "_cw".data) = 2) :=
  ⟨by decide, by decide,
    c9_world_creation_per_pass [0] (blockGrouped [0] [['w']]) [['w']] 0
      (by decide) (by decide)
      (by
        intro p hp
        have hpw : p = ['w'] := by simpa using hp
        subst hpw
        exact ⟨[(0, gpuTag 0 ++ ['w'])], gpuTag 0 ++ ['w'],
          by decide, by decide⟩)⟩

end DataParallelModel
